import Mathlib

/-!
Verification model of the DeltaScope log decoder (src/deltascope.py).

The decoder turns EVM receipt logs into typed transfer/approval records.
This file gives a shallow embedding of the decoding core:

* `_safe_symbol_and_decimals` (source lines 64-82): metadata resolution,
  modelled over an explicit record of the three external contract-call
  outcomes (ERC20 symbol, decimals, ERC721 symbol retry).
* `_format_amount` (source lines 84-88): amount formatting.  The source
  divides two Python integers with float true division (IEEE-754 binary64)
  and renders the result with an 8-decimal fixed format.  We model the
  binary64 result exactly as a mantissa/exponent pair of integers,
  reproducing round-to-nearest-even at 53 bits, the subnormal clamp at
  exponent -1074, the OverflowError raised beyond 2^1024, and the
  correctly rounded half-even fixed-point rendering used by CPython.
* `parse_tx` (source lines 91-133): the per-log decode loop, modelled as a
  fold that can stop with a Python exception (IndexError on a missing
  topic, OverflowError from formatting).  The checksum rendering
  (Web3.to_checksum_address, an external library call) is abstracted as a
  total function parameter `cs`; the metadata lookups are a function
  parameter `md` from the checksummed address to the call outcomes.

Transaction-level scalar fields (fee, value) of the summary are not
modelled: no claim mentions them.
-/

set_option maxRecDepth 40000

namespace DeltaScope

/-! ## Decimal digit strings (Python str of a nonnegative int) -/

/-- Little-endian base-10 digits, fuel-based so the kernel can evaluate it. -/
def digitsAuxF : ℕ → ℕ → List ℕ
  | 0, _ => []
  | fuel + 1, n => if n = 0 then [] else n % 10 :: digitsAuxF fuel (n / 10)

/-- Little-endian base-10 digits of a natural number (empty for 0). -/
def digitsLE (n : ℕ) : List ℕ := digitsAuxF n n

/-- Character of a single decimal digit. -/
def digitChar (d : ℕ) : Char :=
  match d with
  | 0 => '0' | 1 => '1' | 2 => '2' | 3 => '3' | 4 => '4'
  | 5 => '5' | 6 => '6' | 7 => '7' | 8 => '8' | _ => '9'

/-- Numeric value of a decimal digit character. -/
def digitVal (c : Char) : ℕ := c.toNat - 48

/-- Value of a big-endian decimal digit string. -/
def charsVal (cs : List Char) : ℕ := cs.foldl (fun a c => 10 * a + digitVal c) 0

/-- Decimal rendering of a natural number, as Python str produces it. -/
def natChars (n : ℕ) : List Char :=
  if n = 0 then ['0'] else ((digitsLE n).map digitChar).reverse

/-- Python str of a nonnegative integer. -/
def natStr (n : ℕ) : String := String.mk (natChars n)

/-- Python str.rstrip with a single strip character: drop every trailing
occurrence of that character. -/
def rstrip (c : Char) (cs : List Char) : List Char :=
  (cs.reverse.dropWhile (fun x => x = c)).reverse

/-! ## Hex rendering of byte strings (HexBytes.hex) -/

/-- Lowercase hex character of a value below 16. -/
def hexDigitChar (d : ℕ) : Char :=
  match d with
  | 0 => '0' | 1 => '1' | 2 => '2' | 3 => '3' | 4 => '4'
  | 5 => '5' | 6 => '6' | 7 => '7' | 8 => '8' | 9 => '9'
  | 10 => 'a' | 11 => 'b' | 12 => 'c' | 13 => 'd' | 14 => 'e' | _ => 'f'

/-- Two lowercase hex characters of one byte. -/
def byteHexChars (b : ℕ) : List Char := [hexDigitChar (b / 16 % 16), hexDigitChar (b % 16)]

/-- Lowercase hex characters of a byte string. -/
def hexChars (bs : List ℕ) : List Char := (bs.map byteHexChars).flatten

/-- HexBytes.hex(): lowercase hex string of a byte string with a 0x tag in
front.  Topics compare equal to the signature constants through this
rendering; .lower() in the source is the identity on it. -/
def pyHex (bs : List ℕ) : String := String.mk ('0' :: 'x' :: hexChars bs)

/-- Python slice s[-n:] on the character list of a string. -/
def takeLast (n : ℕ) (cs : List Char) : List Char := cs.drop (cs.length - n)

/-- Source lines 105-106 etc: the string 0x + topic.hex()[-40:], the
candidate address text handed to Web3.to_checksum_address. -/
def topicAddrStr (t : List ℕ) : String :=
  "0x" ++ String.mk (takeLast 40 ('0' :: 'x' :: hexChars t))

/-- int.from_bytes(bs, big): big-endian value of a byte string; the empty
string gives 0. -/
def beBytesToNat (bs : List ℕ) : ℕ := bs.foldl (fun acc b => 256 * acc + b) 0

/-! ## The binary64 model

CPython true division of two Python ints produces the IEEE-754 binary64
value nearest to the exact quotient (ties to even mantissa), flushing tiny
quotients into subnormals at exponent -1074 and raising OverflowError when
the rounded result reaches 2^1024.  We model the resulting float exactly
as a pair (m, e) of a mantissa and a binary exponent with value m * 2^e,
computed with integer arithmetic only. -/

/-- Floor of log2 on naturals, fuel-based. -/
def natLog2Aux : ℕ → ℕ → ℕ
  | 0, _ => 0
  | fuel + 1, n => if 2 ≤ n then natLog2Aux fuel (n / 2) + 1 else 0

/-- Floor of log2 of a natural number (0 for inputs below 2). -/
def natLog2F (n : ℕ) : ℕ := natLog2Aux n n

/-- Ceiling of log2: least k with n ≤ 2 ^ k. -/
def natClog2 (n : ℕ) : ℕ := if n ≤ 1 then 0 else natLog2F (n - 1) + 1

/-- Floor of log2 of the positive fraction a / b. -/
def floorLog2Frac (a b : ℕ) : ℤ :=
  if b ≤ a then (natLog2F (a / b) : ℤ)
  else -(natClog2 ((b + a - 1) / a) : ℤ)

/-- Round the fraction a / b (b positive) to the nearest natural number,
ties to even. -/
def roundHalfEvenNat (a b : ℕ) : ℕ :=
  let q := a / b
  let r := a % b
  if 2 * r < b then q
  else if b < 2 * r then q + 1
  else if q % 2 = 0 then q else q + 1

/-- The fraction (a / b) * 2 ^ (-e) as a pair of integers. -/
def shiftFrac (a b : ℕ) (e : ℤ) : ℕ × ℕ :=
  if 0 ≤ e then (a, b * 2 ^ e.toNat) else (a * 2 ^ (-e).toNat, b)

/-- Whether the float value m * 2 ^ e has reached 2 ^ 1024 (the overflow
threshold of binary64). -/
def b64Overflow (m : ℕ) (e : ℤ) : Prop :=
  if 0 ≤ e then 2 ^ 1024 ≤ m * 2 ^ e.toNat else 2 ^ ((1024 + (-e)).toNat) ≤ m

instance (m : ℕ) (e : ℤ) : Decidable (b64Overflow m e) := by
  unfold b64Overflow; split <;> infer_instance

/-- The binary exponent the rounded quotient a / b is expressed at: 52
below its floor log2, clamped at the subnormal bottom -1074. -/
def pyDivExp (a b : ℕ) : ℤ := max (floorLog2Frac a b - 52) (-1074)

/-- The mantissa of the rounded quotient: the fraction scaled to its
exponent, rounded to the nearest integer with ties to even. -/
def pyDivMantissa (a b : ℕ) : ℕ :=
  roundHalfEvenNat (shiftFrac a b (pyDivExp a b)).1 (shiftFrac a b (pyDivExp a b)).2

/-- CPython float true division a / b of nonnegative ints (b positive):
the correctly rounded binary64 value as a mantissa/exponent pair, or none
for the OverflowError CPython raises when the rounded quotient reaches
2 ^ 1024. -/
def pyFloatDiv (a b : ℕ) : Option (ℕ × ℤ) :=
  if a = 0 then some (0, 0)
  else
    if b64Overflow (pyDivMantissa a b) (pyDivExp a b) then none
    else some (pyDivMantissa a b, pyDivExp a b)

/-- The integer n with n / 10^8 the half-even rounding of the float
m * 2 ^ e scaled by 10^8: what an 8-decimal fixed rendering of the float
shows.  CPython formatting is correctly rounded with half-even ties on the
exact binary value of the float. -/
def fix8OfFloat (m : ℕ) (e : ℤ) : ℕ :=
  if 0 ≤ e then m * 10 ^ 8 * 2 ^ e.toNat
  else roundHalfEvenNat (m * 10 ^ 8) (2 ^ (-e).toNat)

/-- The character string of the 8-decimal fixed rendering whose scaled
integer value is n: integer part, a dot, then 8 fraction digits padded
with zeros in front. -/
def fix8Render (n : ℕ) : List Char :=
  natChars (n / 10 ^ 8) ++
    '.' :: (List.replicate (8 - (natChars (n % 10 ^ 8)).length) '0' ++ natChars (n % 10 ^ 8))

/-- Source lines 84-88, _format_amount: with decimals 0 the raw integer is
rendered as a decimal string; otherwise the raw value is divided by
10 ^ decimals in float arithmetic, rendered with 8 fixed decimals, and the
result is stripped of trailing zeros and then of trailing dots.  none
models the OverflowError CPython raises inside the division for quotients
beyond the binary64 range. -/
def _format_amount (raw decimals : ℕ) : Option String :=
  if decimals = 0 then some (natStr raw)
  else
    (pyFloatDiv raw (10 ^ decimals)).map fun f =>
      String.mk (rstrip '.' (rstrip '0' (fix8Render (fix8OfFloat f.1 f.2))))

/-- Modelled from the spec (section 4.5): the idealized formatter that
divides by 10 ^ scale with enough precision to keep at least 8 fraction
digits, renders with 8 fixed decimals and strips.  It rounds the exact
quotient, with the same half-even tie rule the rendering uses.  Used as
the comparison point for the claims about formatting precision. -/
def specFormatAmount (raw scale : ℕ) : String :=
  if scale = 0 then natStr raw
  else String.mk (rstrip '.' (rstrip '0' (fix8Render (roundHalfEvenNat (raw * 10 ^ 8) (10 ^ scale)))))

/-! ## Metadata resolution -/

/-- Outcome of the external contract calls for one address: the ERC20
symbol() call, the decimals() call, and the ERC721-interface symbol()
retry.  none models the call failing (any exception). -/
structure MdOutcome where
  erc20Symbol : Option String
  decimalsResult : Option ℕ
  erc721Symbol : Option String
deriving DecidableEq

/-- Source lines 64-82, _safe_symbol_and_decimals: starts from defaults
(UNKNOWN, 18, ERC20); a successful symbol() overwrites the symbol; a
successful decimals() keeps standard ERC20 and that value; a failing
decimals() switches to ERC721 with decimals 0 and retries symbol() on the
ERC721 interface, keeping the previous symbol value when the retry fails
too.  Returns (symbol, decimals, standard). -/
def _safe_symbol_and_decimals (o : MdOutcome) : String × ℕ × String :=
  let symbol := o.erc20Symbol.getD ("UNKNOWN")
  match o.decimalsResult with
  | some d => (symbol, d, "ERC20")
  | none => (o.erc721Symbol.getD symbol, 0, "ERC721")

/-! ## Log decoding -/

/-- keccak-256 of Transfer(address,address,uint256), fixed at startup by
the source from the web3 library; the standard constant. -/
def SIG_TRANSFER : String := "0xddf252ad1be2c89b69c2b068fc378daa952ba7f163c4a11628f55a4df523b3ef"

/-- keccak-256 of Approval(address,address,uint256). -/
def SIG_APPROVAL : String := "0x8c5be1e5ebec7d5bd14f71427d1e84f3dd0314c0f7b2291e5b200ac8c7c3b925"

/-- keccak-256 of TransferSingle(address,address,address,uint256,uint256). -/
def SIG_TF_SINGLE : String := "0xc3d58168c5ae7397731d063d5bbf3d657854427343f4c083240f7aacaa2d0f62"

/-- keccak-256 of TransferBatch(address,address,address,uint256[],uint256[]). -/
def SIG_TF_BATCH : String := "0x4a39dc06d4c0dbc64b70af90fd698a233a518aa5d07e595d983b8c0526c8f7fb"

/-- The tuple of recognized signatures tested at source line 101, in
source order. -/
def KNOWN_SIGS : List String := [SIG_TRANSFER, SIG_TF_SINGLE, SIG_TF_BATCH, SIG_APPROVAL]

/-- One receipt log: contract address bytes, topic word byte strings, raw
data payload bytes. -/
structure LogEntry where
  address : List ℕ
  topics : List (List ℕ)
  data : List ℕ

/-- Mirror of the source TokenTransfer dataclass (lines 28-37). -/
structure TokenTransfer where
  token : String
  symbol : String
  standard : String
  from_addr : String
  to_addr : String
  amount : String
  raw_amount : ℕ
  token_id : Option ℕ
deriving DecidableEq

/-- Mirror of the source ApprovalChange dataclass (lines 39-46). -/
structure ApprovalChange where
  token : String
  symbol : String
  owner : String
  spender : String
  amount : String
  raw_amount : ℕ
deriving DecidableEq

/-- A record appended by one loop iteration. -/
inductive LogRecord where
  | transfer (t : TokenTransfer)
  | approval (a : ApprovalChange)
deriving DecidableEq

/-- The Python exceptions the loop body can raise. -/
inductive PyErr where
  | indexError
  | overflowError
deriving DecidableEq

/-- The metadata lookup trace of one loop iteration: source line 102
runs the lookup exactly when the first topic is one of the four known
signatures (tested at line 101).  A log with no topics contributes no
lookup (line 99 raises before it). -/
def processLogTrace (cs : String → String) (lg : LogEntry) : List String :=
  match lg.topics.head? with
  | none => []
  | some t0 => if pyHex t0 ∈ KNOWN_SIGS then [cs (pyHex lg.address)] else []

/-- Source lines 98-133, the record produced by one iteration of the log
loop (or the Python exception it raises).  The list indexing on topics
raises IndexError when the topic is missing; formatting can raise
OverflowError; both abort the whole transaction. -/
def processLogResult (cs : String → String) (md : String → MdOutcome) (lg : LogEntry) :
    Except PyErr (Option LogRecord) :=
  match lg.topics.head? with
  | none => .error .indexError
  | some t0 =>
    let topic0 := pyHex t0
    let addr := cs (pyHex lg.address)
    let meta := _safe_symbol_and_decimals (md addr)
    if topic0 = SIG_TRANSFER then
      match lg.topics[1]?, lg.topics[2]? with
      | some t1, some t2 =>
        let raw := beBytesToNat lg.data
        if meta.2.2 = "ERC721" ∨ (meta.2.1 = 0 ∧ raw < 10 ^ 10) then
          .ok (some (.transfer
            { token := addr, symbol := meta.1, standard := "ERC721",
              from_addr := cs (topicAddrStr t1), to_addr := cs (topicAddrStr t2),
              amount := "1", raw_amount := raw, token_id := some raw }))
        else
          match _format_amount raw meta.2.1 with
          | some s => .ok (some (.transfer
              { token := addr, symbol := meta.1, standard := "ERC20",
                from_addr := cs (topicAddrStr t1), to_addr := cs (topicAddrStr t2),
                amount := s, raw_amount := raw, token_id := none }))
          | none => .error .overflowError
      | _, _ => .error .indexError
    else if topic0 = SIG_TF_SINGLE then
      match lg.topics[2]?, lg.topics[3]? with
      | some t2, some t3 =>
        let tid := beBytesToNat (lg.data.take 32)
        let raw := beBytesToNat ((lg.data.drop 32).take 32)
        .ok (some (.transfer
          { token := addr, symbol := meta.1, standard := "ERC1155",
            from_addr := cs (topicAddrStr t2), to_addr := cs (topicAddrStr t3),
            amount := natStr raw, raw_amount := raw, token_id := some tid }))
      | _, _ => .error .indexError
    else if topic0 = SIG_TF_BATCH then
      match lg.topics[2]?, lg.topics[3]? with
      | some t2, some t3 =>
        .ok (some (.transfer
          { token := addr, symbol := meta.1, standard := "ERC1155",
            from_addr := cs (topicAddrStr t2), to_addr := cs (topicAddrStr t3),
            amount := "BATCH", raw_amount := 0, token_id := none }))
      | _, _ => .error .indexError
    else if topic0 = SIG_APPROVAL then
      match lg.topics[1]?, lg.topics[2]? with
      | some t1, some t2 =>
        let raw := beBytesToNat lg.data
        match _format_amount raw meta.2.1 with
        | some s => .ok (some (.approval
            { token := addr, symbol := meta.1,
              owner := cs (topicAddrStr t1), spender := cs (topicAddrStr t2),
              amount := s, raw_amount := raw }))
        | none => .error .overflowError
      | _, _ => .error .indexError
    else .ok none

/-- One iteration of the log loop: the metadata lookups it performs and
its outcome. -/
def processLog (cs : String → String) (md : String → MdOutcome) (lg : LogEntry) :
    List String × Except PyErr (Option LogRecord) :=
  (processLogTrace cs lg, processLogResult cs md lg)

/-- The loop of source lines 98-133 over the whole log list: accumulates
the transfer and approval lists in receipt order, records the metadata
query trace, and stops at the first exception (which the caller of
parse_tx sees as a failed transaction). -/
def parseLogsAux (cs : String → String) (md : String → MdOutcome) :
    List LogEntry → List String × Except PyErr (List TokenTransfer × List ApprovalChange)
  | [] => ([], .ok ([], []))
  | lg :: rest =>
    let step := processLog cs md lg
    match step.2 with
    | .error e => (step.1, .error e)
    | .ok orec =>
      let tail := parseLogsAux cs md rest
      (step.1 ++ tail.1,
        match tail.2 with
        | .error e => .error e
        | .ok p =>
          .ok (match orec with
            | some (.transfer t) => (t :: p.1, p.2)
            | some (.approval a) => (p.1, a :: p.2)
            | none => p))

/-- The transfers and approvals of the transaction summary parse_tx
builds (or the exception that aborts it). -/
def parse_tx (cs : String → String) (md : String → MdOutcome) (logs : List LogEntry) :
    Except PyErr (List TokenTransfer × List ApprovalChange) :=
  (parseLogsAux cs md logs).2

/-- The sequence of addresses for which the source ran the metadata
lookup of line 102, in order, up to the first exception. -/
def metadataQueries (cs : String → String) (md : String → MdOutcome) (logs : List LogEntry) :
    List String :=
  (parseLogsAux cs md logs).1

/-- The transfer record one log contributes, when its processing neither
raises nor produces an approval. -/
def transferOf (cs : String → String) (md : String → MdOutcome) (lg : LogEntry) :
    Option TokenTransfer :=
  match (processLog cs md lg).2 with
  | .ok (some (.transfer t)) => some t
  | _ => none

/-- The approval record one log contributes, when any. -/
def approvalOf (cs : String → String) (md : String → MdOutcome) (lg : LogEntry) :
    Option ApprovalChange :=
  match (processLog cs md lg).2 with
  | .ok (some (.approval a)) => some a
  | _ => none

/-! ## Claim-side observers -/

/-- Parse a decimal string (digits with at most one dot) into a
numerator/denominator pair, the way a reader interprets the formatted
amount.  Used to state the round-trip claims. -/
def parseDec (cs : List Char) : ℕ × ℕ :=
  let ip := cs.takeWhile (fun c => c ≠ '.')
  match cs.dropWhile (fun c => c ≠ '.') with
  | [] => (charsVal ip, 1)
  | _ :: frac => (charsVal ip * 10 ^ frac.length + charsVal frac, 10 ^ frac.length)

/-- The rational value a formatted amount string denotes. -/
def strToRat (s : String) : ℚ :=
  ((parseDec s.toList).1 : ℚ) / ((parseDec s.toList).2 : ℚ)

/-- The formatted string carries no trailing fraction zeros and no
dangling decimal dot: when a dot occurs, the string ends in neither a
zero nor a dot. -/
def noTrailingJunk (s : String) : Prop :=
  '.' ∈ s.toList → (s.toList.getLast? ≠ some '0' ∧ s.toList.getLast? ≠ some '.')

instance (s : String) : Decidable (noTrailingJunk s) := by
  unfold noTrailingJunk; infer_instance

/-- The float (m, e) carries the fraction a / b exactly. -/
def floatIsExact (f : ℕ × ℤ) (a b : ℕ) : Prop :=
  if 0 ≤ f.2 then a = b * f.1 * 2 ^ f.2.toNat else a * 2 ^ (-f.2).toNat = b * f.1

instance (f : ℕ × ℤ) (a b : ℕ) : Decidable (floatIsExact f a b) := by
  unfold floatIsExact; split <;> infer_instance

/-! ## Digit string lemmas -/

/-- Little-endian value of a digit list. -/
def digitsVal (l : List ℕ) : ℕ := l.foldr (fun d acc => d + 10 * acc) 0

theorem digitVal_digitChar {d : ℕ} (h : d < 10) : digitVal (digitChar d) = d := by
  interval_cases d <;> rfl

theorem digitChar_ne_dot (d : ℕ) : digitChar d ≠ '.' := by
  unfold digitChar; split <;> decide

theorem charsVal_foldl_acc (b : List Char) (acc : ℕ) :
    b.foldl (fun a c => 10 * a + digitVal c) acc = acc * 10 ^ b.length + charsVal b := by
  induction b generalizing acc with
  | nil => simp [charsVal]
  | cons c bs ih =>
    have h0 : charsVal (c :: bs) = (digitVal c) * 10 ^ bs.length + charsVal bs := by
      simpa [charsVal] using ih (digitVal c)
    simp only [List.foldl_cons, List.length_cons, ih, h0]
    ring

theorem charsVal_append (a b : List Char) :
    charsVal (a ++ b) = charsVal a * 10 ^ b.length + charsVal b := by
  simpa [charsVal, List.foldl_append] using charsVal_foldl_acc b (charsVal a)

theorem charsVal_replicate_zero (k : ℕ) : charsVal (List.replicate k '0') = 0 := by
  induction k with
  | zero => rfl
  | succ m ih =>
    have h1 : charsVal (List.replicate (m + 1) '0') = charsVal (List.replicate m '0') := by
      rw [List.replicate_succ]; rfl
    rw [h1]; exact ih

theorem charsVal_pad (k : ℕ) (l : List Char) :
    charsVal (List.replicate k '0' ++ l) = charsVal l := by
  simp [charsVal_append, charsVal_replicate_zero]

theorem digitsAuxF_val : ∀ fuel n, n ≤ fuel → digitsVal (digitsAuxF fuel n) = n := by
  intro fuel
  induction fuel with
  | zero => intro n h; interval_cases n; rfl
  | succ m ih =>
    intro n h
    by_cases h0 : n = 0
    · simp [digitsAuxF, h0, digitsVal]
    · have hdiv : n / 10 ≤ m := by
        have h1 : n / 10 < n := Nat.div_lt_self (Nat.pos_of_ne_zero h0) (by norm_num)
        omega
      simp only [digitsAuxF, h0, if_false, digitsVal, List.foldr_cons]
      have := ih (n / 10) hdiv
      simp only [digitsVal] at this
      rw [this]
      omega

theorem digitsAuxF_lt10 : ∀ fuel n d, d ∈ digitsAuxF fuel n → d < 10 := by
  intro fuel
  induction fuel with
  | zero => intro n d h; simp [digitsAuxF] at h
  | succ m ih =>
    intro n d h
    by_cases h0 : n = 0
    · simp [digitsAuxF, h0] at h
    · simp only [digitsAuxF, h0, if_false, List.mem_cons] at h
      rcases h with h | h
      · subst h; exact Nat.mod_lt _ (by norm_num)
      · exact ih _ _ h

theorem digitsAuxF_len : ∀ fuel n k, n < 10 ^ k → (digitsAuxF fuel n).length ≤ k := by
  intro fuel
  induction fuel with
  | zero => intro n k _; simp [digitsAuxF]
  | succ m ih =>
    intro n k hk
    by_cases h0 : n = 0
    · simp [digitsAuxF, h0]
    · have hk1 : 1 ≤ k := by
        rcases Nat.eq_zero_or_pos k with h | h
        · subst h; simp at hk; omega
        · exact h
      simp only [digitsAuxF, h0, if_false, List.length_cons]
      have hdiv : n / 10 < 10 ^ (k - 1) := by
        have : n < 10 * 10 ^ (k - 1) := by
          have : 10 * 10 ^ (k - 1) = 10 ^ k := by
            rw [← pow_succ']
            congr 1
            omega
          omega
        omega
      have := ih (n / 10) (k - 1) hdiv
      omega

theorem charsVal_rev_map_digitChar (l : List ℕ) (h : ∀ d ∈ l, d < 10) :
    charsVal ((l.map digitChar).reverse) = digitsVal l := by
  induction l with
  | nil => rfl
  | cons d ds ih =>
    have hd : d < 10 := h d (List.mem_cons_self d ds)
    have hds : ∀ x ∈ ds, x < 10 := fun x hx => h x (List.mem_cons_of_mem d hx)
    simp only [List.map_cons, List.reverse_cons, digitsVal, List.foldr_cons]
    rw [charsVal_append, ih hds]
    simp [charsVal, digitVal_digitChar hd, digitsVal]
    ring

theorem charsVal_natChars (n : ℕ) : charsVal (natChars n) = n := by
  by_cases h0 : n = 0
  · subst h0; rfl
  · have hlt : ∀ d ∈ digitsLE n, d < 10 := fun d hd => digitsAuxF_lt10 n n d hd
    unfold natChars
    rw [if_neg h0, charsVal_rev_map_digitChar _ hlt]
    exact digitsAuxF_val n n le_rfl

theorem natChars_ne_nil (n : ℕ) : natChars n ≠ [] := by
  by_cases h0 : n = 0
  · subst h0; simp [natChars]
  · unfold natChars
    rw [if_neg h0]
    simp only [ne_eq, List.reverse_eq_nil_iff, List.map_eq_nil_iff]
    cases fuel : n with
    | zero => omega
    | succ m =>
      simp [digitsLE, fuel, digitsAuxF, show m + 1 ≠ 0 by omega]

theorem natChars_ne_dot (n : ℕ) : ∀ c ∈ natChars n, c ≠ '.' := by
  intro c hc
  by_cases h0 : n = 0
  · subst h0; simp [natChars] at hc; subst hc; decide
  · unfold natChars at hc
    rw [if_neg h0] at hc
    simp only [List.mem_reverse, List.mem_map] at hc
    obtain ⟨d, _, rfl⟩ := hc
    exact digitChar_ne_dot d

theorem natChars_len_le {n k : ℕ} (h : n < 10 ^ k) (hk : 1 ≤ k) : (natChars n).length ≤ k := by
  by_cases h0 : n = 0
  · subst h0; simpa [natChars] using hk
  · unfold natChars
    rw [if_neg h0]
    simpa using digitsAuxF_len n n k h

/-! ## rstrip lemmas -/

theorem rstrip_append_of_ne (c : Char) (a b : List Char) (h : rstrip c b ≠ []) :
    rstrip c (a ++ b) = a ++ rstrip c b := by
  unfold rstrip at h ⊢
  rw [List.reverse_append, List.dropWhile_append]
  have hne : ¬ (b.reverse.dropWhile (fun x => x = c)).isEmpty := by
    intro hemp
    rw [List.isEmpty_iff] at hemp
    simp [hemp] at h
  rw [if_neg hne]
  simp

theorem rstrip_append_all (c : Char) (a b : List Char) (h : rstrip c b = []) :
    rstrip c (a ++ b) = rstrip c a := by
  unfold rstrip at h ⊢
  rw [List.reverse_append, List.dropWhile_append]
  have hemp : (b.reverse.dropWhile (fun x => x = c)).isEmpty := by
    rw [List.isEmpty_iff]
    have := congrArg List.reverse h
    simpa using this
  rw [if_pos hemp]

theorem rstrip_eq_nil (c : Char) (b : List Char) (h : ∀ x ∈ b, x = c) : rstrip c b = [] := by
  unfold rstrip
  have : b.reverse.dropWhile (fun x => x = c) = [] := by
    rw [List.dropWhile_eq_nil_iff]
    intro x hx
    simpa using h x (List.mem_reverse.mp hx)
  simp [this]

theorem rstrip_eq_self (c : Char) (l : List Char) (h : ∀ x, l.getLast? = some x → x ≠ c) :
    rstrip c l = l := by
  unfold rstrip
  cases hl : l.reverse with
  | nil => simpa using congrArg List.reverse hl
  | cons y ys =>
    have hy : l.getLast? = some y := by
      rw [← List.head?_reverse, hl]; rfl
    rw [List.dropWhile_cons, if_neg (by simpa using h y hy)]
    rw [← hl, List.reverse_reverse]

theorem mem_rstrip (c : Char) (l : List Char) (x : Char) (h : x ∈ rstrip c l) : x ∈ l := by
  unfold rstrip at h
  rw [List.mem_reverse] at h
  exact List.mem_reverse.mp ((List.dropWhile_sublist _).subset h)

theorem rstrip_getLast (c : Char) (l : List Char) (h : rstrip c l ≠ []) :
    ∀ x, (rstrip c l).getLast? = some x → x ≠ c := by
  intro x hx
  unfold rstrip at h hx
  cases hd : l.reverse.dropWhile (fun y => y = c) with
  | nil => simp [hd] at h
  | cons y ys =>
    have hy : y ≠ c := by
      have := List.head_dropWhile_not (p := fun y => y = c) (l := l.reverse)
      rw [hd] at this
      simpa using this (by simp)
    have : (rstrip c l).getLast? = some y := by
      unfold rstrip
      rw [hd, ← List.head?_reverse]
      simp
    unfold rstrip at this
    rw [hx] at this
    exact (Option.some_inj.mp this) ▸ hy

theorem rstrip_length_le (c : Char) (l : List Char) : (rstrip c l).length ≤ l.length := by
  unfold rstrip
  simpa using (List.dropWhile_sublist (l := l.reverse) (fun x => x = c)).length_le

theorem charsVal_rstrip_zero (l : List Char) :
    charsVal l = charsVal (rstrip '0' l) * 10 ^ (l.length - (rstrip '0' l).length) := by
  have core : ∀ rs : List Char,
      charsVal rs.reverse =
        charsVal ((rs.dropWhile (fun x => x = '0')).reverse) *
          10 ^ (rs.length - (rs.dropWhile (fun x => x = '0')).length) := by
    intro rs
    induction rs with
    | nil => simp [charsVal]
    | cons y ys ih =>
      by_cases hy : y = '0'
      · subst hy
        rw [List.dropWhile_cons, if_pos (by simp)]
        have hlen : (ys.dropWhile (fun x => x = '0')).length ≤ ys.length :=
          (List.dropWhile_sublist _).length_le
        have : charsVal ((('0') :: ys).reverse) = 10 * charsVal ys.reverse := by
          simp [List.reverse_cons, charsVal_append, charsVal, digitVal]
        rw [this, ih]
        have hexp : (('0') :: ys).length - (ys.dropWhile (fun x => x = '0')).length
            = (ys.length - (ys.dropWhile (fun x => x = '0')).length) + 1 := by
          simp only [List.length_cons]
          omega
        rw [hexp, pow_succ]
        ring
      · rw [List.dropWhile_cons, if_neg (by simpa using hy)]
        simp
  have := core l.reverse
  simpa [rstrip] using this

/-! ## takeWhile and dropWhile over an append -/

theorem takeWhile_append_stop (p : Char → Bool) (a : List Char) (x : Char) (b : List Char)
    (ha : ∀ c ∈ a, p c) (hx : ¬ p x) : (a ++ x :: b).takeWhile p = a := by
  induction a with
  | nil => simp [List.takeWhile_cons, hx]
  | cons y ys ih =>
    have hy : p y := ha y (List.mem_cons_self y ys)
    simp only [List.cons_append, List.takeWhile_cons, hy, if_true]
    rw [ih (fun c hc => ha c (List.mem_cons_of_mem y hc))]

theorem dropWhile_append_stop (p : Char → Bool) (a : List Char) (x : Char) (b : List Char)
    (ha : ∀ c ∈ a, p c) (hx : ¬ p x) : (a ++ x :: b).dropWhile p = x :: b := by
  induction a with
  | nil => simp [List.dropWhile_cons, hx]
  | cons y ys ih =>
    have hy : p y := ha y (List.mem_cons_self y ys)
    simp only [List.cons_append, List.dropWhile_cons, hy, if_true]
    exact ih (fun c hc => ha c (List.mem_cons_of_mem y hc))

/-! ## Structure of the stripped 8-decimal rendering -/

theorem mem_of_getLast? {l : List Char} {x : Char} (h : l.getLast? = some x) : x ∈ l := by
  rw [← List.head?_reverse] at h
  have hx : x ∈ l.reverse := by
    cases hr : l.reverse with
    | nil => rw [hr] at h; simp at h
    | cons y ys =>
      rw [hr] at h
      simp only [List.head?_cons, Option.some_inj] at h
      subst h
      exact List.mem_cons_self _ _
  exact List.mem_reverse.mp hx

theorem rstrip_nil_all (c : Char) (l : List Char) (h : rstrip c l = []) : ∀ x ∈ l, x = c := by
  intro x hx
  unfold rstrip at h
  have h2 : l.reverse.dropWhile (fun y => y = c) = [] := by
    have := congrArg List.reverse h
    simpa using this
  have := List.dropWhile_eq_nil_iff.mp h2 x (List.mem_reverse.mpr hx)
  simpa using this

/-- The fraction character block of the 8-decimal rendering. -/
def fracChars (fp : ℕ) : List Char :=
  List.replicate (8 - (natChars fp).length) '0' ++ natChars fp

theorem fix8Render_eq (n : ℕ) :
    fix8Render n = natChars (n / 10 ^ 8) ++ '.' :: fracChars (n % 10 ^ 8) := rfl

theorem fracChars_len (fp : ℕ) (h : fp < 10 ^ 8) : (fracChars fp).length = 8 := by
  have hle : (natChars fp).length ≤ 8 := natChars_len_le h (by norm_num)
  simp only [fracChars, List.length_append, List.length_replicate]
  omega

theorem fracChars_val (fp : ℕ) : charsVal (fracChars fp) = fp := by
  rw [fracChars, charsVal_pad, charsVal_natChars]

theorem fracChars_ne_dot (fp : ℕ) : ∀ c ∈ fracChars fp, c ≠ '.' := by
  intro c hc
  rcases List.mem_append.mp hc with h | h
  · have := List.eq_of_mem_replicate h
    subst this; decide
  · exact natChars_ne_dot fp c h

theorem strip_fix8_structure (n : ℕ) :
    (n % 10 ^ 8 = 0 ∧ rstrip '.' (rstrip '0' (fix8Render n)) = natChars (n / 10 ^ 8)) ∨
    (∃ st : List Char, st ≠ [] ∧
      (∀ x, st.getLast? = some x → x ≠ '0' ∧ x ≠ '.') ∧
      (∀ x ∈ st, x ≠ '.') ∧ st.length ≤ 8 ∧
      charsVal st * 10 ^ (8 - st.length) = n % 10 ^ 8 ∧
      rstrip '.' (rstrip '0' (fix8Render n)) = natChars (n / 10 ^ 8) ++ '.' :: st) := by
  have hfp : n % 10 ^ 8 < 10 ^ 8 := Nat.mod_lt _ (by norm_num)
  set ip := n / 10 ^ 8 with hip
  set fp := n % 10 ^ 8 with hfpdef
  have hsplit : fix8Render n = (natChars ip ++ ['.']) ++ fracChars fp := by
    rw [fix8Render_eq, List.append_cons]
  by_cases h : rstrip '0' (fracChars fp) = []
  · left
    have hzero : fp = 0 := by
      have h1 := charsVal_rstrip_zero (fracChars fp)
      rw [h, fracChars_val] at h1
      simpa [charsVal] using h1
    refine ⟨hzero, ?_⟩
    rw [hsplit, rstrip_append_all _ _ _ h]
    have hdotlast : rstrip '0' (natChars ip ++ ['.']) = natChars ip ++ ['.'] := by
      apply rstrip_eq_self
      intro x hx
      rw [List.getLast?_concat] at hx
      have h2 : x = '.' := by simpa using hx.symm
      subst h2; decide
    rw [hdotlast]
    have hdots : rstrip '.' (natChars ip ++ ['.']) = rstrip '.' (natChars ip) := by
      apply rstrip_append_all
      apply rstrip_eq_nil
      intro x hx
      simpa using hx
    rw [hdots]
    apply rstrip_eq_self
    intro x hx
    exact natChars_ne_dot ip x (mem_of_getLast? hx)
  · right
    refine ⟨rstrip '0' (fracChars fp), h, ?_, ?_, ?_, ?_, ?_⟩
    · intro x hx
      refine ⟨rstrip_getLast _ _ h x hx, ?_⟩
      exact fracChars_ne_dot fp x (mem_rstrip _ _ _ (mem_of_getLast? hx))
    · intro x hx
      exact fracChars_ne_dot fp x (mem_rstrip _ _ _ hx)
    · have := rstrip_length_le '0' (fracChars fp)
      rw [fracChars_len fp hfp] at this
      exact this
    · have hv := charsVal_rstrip_zero (fracChars fp)
      rw [fracChars_val, fracChars_len fp hfp] at hv
      exact hv.symm
    · rw [hsplit, rstrip_append_of_ne _ _ _ h, List.append_assoc]
      have : rstrip '.' ((natChars ip ++ ['.'] ++ rstrip '0' (fracChars fp))) =
          natChars ip ++ ['.'] ++ rstrip '0' (fracChars fp) := by
        apply rstrip_eq_self
        intro x hx
        rw [List.getLast?_append_of_ne_nil _ h] at hx
        exact (fracChars_ne_dot fp x (mem_rstrip _ _ _ (mem_of_getLast? hx)))
      rw [← List.append_assoc, this, List.append_assoc]
      rfl

theorem parseDec_strip_fix8 (n : ℕ) :
    (parseDec (rstrip '.' (rstrip '0' (fix8Render n)))).1 * 10 ^ 8 =
      n * (parseDec (rstrip '.' (rstrip '0' (fix8Render n)))).2 ∧
    0 < (parseDec (rstrip '.' (rstrip '0' (fix8Render n)))).2 := by
  have hnm : n = (n / 10 ^ 8) * 10 ^ 8 + n % 10 ^ 8 := by omega
  rcases strip_fix8_structure n with ⟨hfp, heq⟩ | ⟨st, hne, _, hdot, hlen, hval, heq⟩
  · rw [heq]
    have htake : (natChars (n / 10 ^ 8)).takeWhile (fun c => c ≠ '.') = natChars (n / 10 ^ 8) := by
      rw [List.takeWhile_eq_self_iff]
      intro x hx
      simpa using natChars_ne_dot _ x hx
    have hdrop : (natChars (n / 10 ^ 8)).dropWhile (fun c => c ≠ '.') = [] := by
      rw [List.dropWhile_eq_nil_iff]
      intro x hx
      simpa using natChars_ne_dot _ x hx
    simp only [parseDec, htake, hdrop, charsVal_natChars]
    constructor
    · omega
    · norm_num
  · rw [heq]
    have htake : (natChars (n / 10 ^ 8) ++ '.' :: st).takeWhile (fun c => c ≠ '.') =
        natChars (n / 10 ^ 8) := by
      apply takeWhile_append_stop
      · intro c hc; simpa using natChars_ne_dot _ c hc
      · simp
    have hdrop : (natChars (n / 10 ^ 8) ++ '.' :: st).dropWhile (fun c => c ≠ '.') = '.' :: st := by
      apply dropWhile_append_stop
      · intro c hc; simpa using natChars_ne_dot _ c hc
      · simp
    simp only [parseDec, htake, hdrop, charsVal_natChars]
    constructor
    · have hpow : 10 ^ (8 - st.length) * 10 ^ st.length = 10 ^ 8 := by
        rw [← pow_add]
        congr 1
        omega
      have hv8 : charsVal st * 10 ^ 8 = (n % 10 ^ 8) * 10 ^ st.length := by
        calc charsVal st * 10 ^ 8
            = charsVal st * (10 ^ (8 - st.length) * 10 ^ st.length) := by rw [hpow]
          _ = charsVal st * 10 ^ (8 - st.length) * 10 ^ st.length := by ring
          _ = (n % 10 ^ 8) * 10 ^ st.length := by rw [hval]
      calc ((n / 10 ^ 8) * 10 ^ st.length + charsVal st) * 10 ^ 8
          = ((n / 10 ^ 8) * 10 ^ 8) * 10 ^ st.length + charsVal st * 10 ^ 8 := by ring
        _ = ((n / 10 ^ 8) * 10 ^ 8) * 10 ^ st.length + (n % 10 ^ 8) * 10 ^ st.length := by
            rw [hv8]
        _ = ((n / 10 ^ 8) * 10 ^ 8 + n % 10 ^ 8) * 10 ^ st.length := by ring
        _ = n * 10 ^ st.length := by rw [← hnm]
    · positivity

theorem noTrailingJunk_strip_fix8 (n : ℕ) :
    noTrailingJunk (String.mk (rstrip '.' (rstrip '0' (fix8Render n)))) := by
  unfold noTrailingJunk
  rcases strip_fix8_structure n with ⟨_, heq⟩ | ⟨st, hne, hlast, _, _, _, heq⟩
  · intro hdot
    exfalso
    rw [heq] at hdot
    exact natChars_ne_dot _ '.' hdot rfl
  · intro _
    rw [heq]
    have hex : ∃ x, st.getLast? = some x := by
      have := List.getLast?_isSome.mpr hne
      exact Option.isSome_iff_exists.mp this
    obtain ⟨x, hx⟩ := hex
    have hlx := hlast x hx
    have hgl : (natChars (n / 10 ^ 8) ++ '.' :: st).getLast? = some x := by
      rw [List.getLast?_append_of_ne_nil _ (by simp), List.getLast?_cons, hx]
      simp
    constructor
    · show (natChars (n / 10 ^ 8) ++ '.' :: st).getLast? ≠ some '0'
      rw [hgl]
      simpa using hlx.1
    · show (natChars (n / 10 ^ 8) ++ '.' :: st).getLast? ≠ some '.'
      rw [hgl]
      simpa using hlx.2

/-! ## Rational bridge for the rounding primitives -/

/-- Nearest integer with ties to even, on rationals; the reasoning-side
mirror of roundHalfEvenNat. -/
def rheQ (q : ℚ) : ℤ :=
  if q - (⌊q⌋ : ℚ) < 1/2 then ⌊q⌋
  else if (1/2 : ℚ) < q - (⌊q⌋ : ℚ) then ⌊q⌋ + 1
  else if ⌊q⌋ % 2 = 0 then ⌊q⌋ else ⌊q⌋ + 1

theorem rheQ_le (q : ℚ) : (rheQ q : ℚ) ≤ q + 1/2 := by
  have h1 := Int.floor_le q
  have h2 := Int.lt_floor_add_one q
  unfold rheQ
  split_ifs with ha hb hc <;> push_cast <;> linarith

theorem rheQ_ge (q : ℚ) : q - 1/2 ≤ (rheQ q : ℚ) := by
  have h1 := Int.floor_le q
  have h2 := Int.lt_floor_add_one q
  unfold rheQ
  split_ifs with ha hb hc <;> push_cast <;> linarith

theorem rheQ_natCast (n : ℕ) : rheQ (n : ℚ) = n := by
  unfold rheQ
  rw [Int.floor_natCast]
  have hc : (((n : ℕ) : ℤ) : ℚ) = (n : ℚ) := by norm_cast
  rw [hc, sub_self, if_pos (by norm_num : (0 : ℚ) < 1/2)]

theorem roundHalfEvenNat_eq_rheQ (a b : ℕ) (hb : 0 < b) :
    (roundHalfEvenNat a b : ℤ) = rheQ ((a : ℚ) / b) := by
  have hbQ : (0 : ℚ) < b := by exact_mod_cast hb
  have hfloor : ⌊(a : ℚ) / b⌋ = ((a / b : ℕ) : ℤ) := by
    rw [Rat.floor_natCast_div_natCast]
    exact_mod_cast rfl
  have hmod : (a : ℚ) = (b : ℚ) * ((a / b : ℕ) : ℚ) + ((a % b : ℕ) : ℚ) := by
    exact_mod_cast (Nat.div_add_mod a b).symm
  have hfrac : (a : ℚ) / b - (((a / b : ℕ) : ℤ) : ℚ) = ((a % b : ℕ) : ℚ) / b := by
    have h1 : (((a / b : ℕ) : ℤ) : ℚ) = ((a / b : ℕ) : ℚ) := by norm_cast
    rw [h1, eq_div_iff (ne_of_gt hbQ), sub_mul, div_mul_cancel₀ _ (ne_of_gt hbQ)]
    linarith
  have hlt : ((a % b : ℕ) : ℚ) / b < 1/2 ↔ 2 * (a % b) < b := by
    rw [div_lt_div_iff₀ hbQ (by norm_num : (0 : ℚ) < 2)]
    constructor
    · intro h
      have h2 : ((2 * (a % b) : ℕ) : ℚ) < ((b : ℕ) : ℚ) := by push_cast; linarith
      exact_mod_cast h2
    · intro h
      have h2 : ((2 * (a % b) : ℕ) : ℚ) < ((b : ℕ) : ℚ) := by exact_mod_cast h
      push_cast at h2
      linarith
  have hgt : (1/2 : ℚ) < ((a % b : ℕ) : ℚ) / b ↔ b < 2 * (a % b) := by
    rw [div_lt_div_iff₀ (by norm_num : (0 : ℚ) < 2) hbQ]
    constructor
    · intro h
      have h2 : ((b : ℕ) : ℚ) < ((2 * (a % b) : ℕ) : ℚ) := by push_cast; linarith
      exact_mod_cast h2
    · intro h
      have h2 : ((b : ℕ) : ℚ) < ((2 * (a % b) : ℕ) : ℚ) := by exact_mod_cast h
      push_cast at h2
      linarith
  simp only [roundHalfEvenNat, rheQ]
  rw [hfloor, hfrac]
  by_cases h1 : 2 * (a % b) < b
  · rw [if_pos h1, if_pos (hlt.mpr h1)]
  · rw [if_neg h1, if_neg (fun hq => h1 (hlt.mp hq))]
    by_cases h2 : b < 2 * (a % b)
    · rw [if_pos h2, if_pos (hgt.mpr h2)]
      push_cast
      ring
    · rw [if_neg h2, if_neg (fun hq => h2 (hgt.mp hq))]
      by_cases h3 : a / b % 2 = 0
      · rw [if_pos h3, if_pos (by omega : ((a / b : ℕ) : ℤ) % 2 = 0)]
      · rw [if_neg h3, if_neg (by omega : ¬ ((a / b : ℕ) : ℤ) % 2 = 0)]
        push_cast
        ring

theorem roundHalfEvenNat_cast (a b : ℕ) (hb : 0 < b) :
    ((roundHalfEvenNat a b : ℕ) : ℚ) = ((rheQ ((a : ℚ) / b) : ℤ) : ℚ) := by
  exact_mod_cast congrArg (fun z : ℤ => (z : ℚ)) (roundHalfEvenNat_eq_rheQ a b hb)

theorem roundHalfEvenNat_invariant (a b a2 b2 : ℕ) (hb : 0 < b) (hb2 : 0 < b2)
    (h : a * b2 = a2 * b) : roundHalfEvenNat a b = roundHalfEvenNat a2 b2 := by
  have hq : (a : ℚ) / b = (a2 : ℚ) / b2 := by
    rw [div_eq_div_iff (by exact_mod_cast hb.ne' : (b : ℚ) ≠ 0)
      (by exact_mod_cast hb2.ne' : (b2 : ℚ) ≠ 0)]
    exact_mod_cast h
  have := roundHalfEvenNat_eq_rheQ a b hb
  rw [hq, ← roundHalfEvenNat_eq_rheQ a2 b2 hb2] at this
  exact_mod_cast this

theorem roundHalfEvenNat_dvd (a b : ℕ) (hb : 0 < b) (h : b ∣ a) :
    roundHalfEvenNat a b = a / b := by
  have hq : (a : ℚ) / b = ((a / b : ℕ) : ℚ) := by
    obtain ⟨c, rfl⟩ := h
    have hbne : (b : ℚ) ≠ 0 := by exact_mod_cast hb.ne'
    rw [Nat.mul_div_cancel_left c hb]
    push_cast
    field_simp
  have := roundHalfEvenNat_eq_rheQ a b hb
  rw [hq, rheQ_natCast] at this
  exact_mod_cast this

/-! ## Correctness of the log2 helpers -/

theorem natLog2Aux_spec : ∀ fuel n, 0 < n → n ≤ fuel →
    2 ^ natLog2Aux fuel n ≤ n ∧ n < 2 ^ (natLog2Aux fuel n + 1) := by
  intro fuel
  induction fuel with
  | zero => intro n h1 h2; omega
  | succ m ih =>
    intro n h1 h2
    by_cases h : 2 ≤ n
    · have hd1 : 0 < n / 2 := Nat.div_pos h (by norm_num)
      have hd2 : n / 2 ≤ m := by
        have : n / 2 < n := Nat.div_lt_self h1 (by norm_num)
        omega
      have hih := ih (n / 2) hd1 hd2
      simp only [natLog2Aux, h, if_true]
      constructor
      · have hk := hih.1
        have hpow : 2 ^ (natLog2Aux m (n / 2) + 1) = 2 * 2 ^ natLog2Aux m (n / 2) := by ring
        omega
      · have hk := hih.2
        have hpow : 2 ^ (natLog2Aux m (n / 2) + 1 + 1) = 2 * 2 ^ (natLog2Aux m (n / 2) + 1) := by
          ring
        omega
    · have hn : n = 1 := by omega
      subst hn
      simp [natLog2Aux]

theorem natLog2F_spec (n : ℕ) (h : 0 < n) :
    2 ^ natLog2F n ≤ n ∧ n < 2 ^ (natLog2F n + 1) :=
  natLog2Aux_spec n n h le_rfl

theorem natClog2_ge (n : ℕ) : n ≤ 2 ^ natClog2 n := by
  unfold natClog2
  by_cases h : n ≤ 1
  · rw [if_pos h]; omega
  · rw [if_neg h]
    have := (natLog2F_spec (n - 1) (by omega)).2
    omega

/-! ## Value semantics of pyFloatDiv and fix8OfFloat -/

theorem floorLog2Frac_le (a b : ℕ) (ha : 0 < a) (hb : 0 < b) :
    (2 : ℚ) ^ (floorLog2Frac a b) ≤ (a : ℚ) / b := by
  have hbQ : (0 : ℚ) < b := by exact_mod_cast hb
  unfold floorLog2Frac
  by_cases h : b ≤ a
  · rw [if_pos h]
    have h1 := (natLog2F_spec (a / b) (Nat.div_pos h hb)).1
    have h2 : ((2 ^ natLog2F (a / b) : ℕ) : ℚ) ≤ ((a / b : ℕ) : ℚ) := by exact_mod_cast h1
    have h3 : ((a / b : ℕ) : ℚ) ≤ (a : ℚ) / b := Nat.cast_div_le
    calc (2 : ℚ) ^ ((natLog2F (a / b) : ℤ)) = ((2 ^ natLog2F (a / b) : ℕ) : ℚ) := by
          rw [zpow_natCast]; push_cast; ring
      _ ≤ (a : ℚ) / b := le_trans h2 h3
  · rw [if_neg h]
    set c := (b + a - 1) / a with hc
    have hx : a * c + (b + a - 1) % a = b + a - 1 := by
      rw [hc]; exact Nat.div_add_mod _ _
    have hm : (b + a - 1) % a < a := Nat.mod_lt _ ha
    have hac : b ≤ a * c := by omega
    have hck : c ≤ 2 ^ natClog2 c := natClog2_ge c
    have hble : b ≤ a * 2 ^ natClog2 c := le_trans hac (Nat.mul_le_mul_left a hck)
    rw [zpow_neg, zpow_natCast, inv_eq_one_div,
      div_le_div_iff₀ (by positivity) hbQ]
    have hcast : ((b : ℕ) : ℚ) ≤ ((a * 2 ^ natClog2 c : ℕ) : ℚ) := by exact_mod_cast hble
    push_cast at hcast
    linarith

theorem shiftFrac_val (a b : ℕ) (e : ℤ) (hb : 0 < b) :
    ((shiftFrac a b e).1 : ℚ) / ((shiftFrac a b e).2 : ℚ) = ((a : ℚ) / b) * (2 : ℚ) ^ (-e) ∧
      0 < (shiftFrac a b e).2 := by
  have hbQ : (0 : ℚ) < b := by exact_mod_cast hb
  unfold shiftFrac
  by_cases he : 0 ≤ e
  · rw [if_pos he]
    have hcast : ((e.toNat : ℕ) : ℤ) = e := Int.toNat_of_nonneg he
    have hz : (2 : ℚ) ^ (-e) = ((2 : ℚ) ^ e.toNat)⁻¹ := by
      rw [zpow_neg]
      congr 1
      rw [← zpow_natCast (2 : ℚ) e.toNat, hcast]
    constructor
    · rw [hz]
      push_cast
      ring
    · positivity
  · rw [if_neg he]
    have hcast : (((-e).toNat : ℕ) : ℤ) = -e := Int.toNat_of_nonneg (by omega)
    have hz : (2 : ℚ) ^ (-e) = (2 : ℚ) ^ (-e).toNat := by
      rw [← zpow_natCast (2 : ℚ) (-e).toNat, hcast]
    constructor
    · rw [hz]
      push_cast
      ring
    · exact hb

theorem b64Overflow_iff (m : ℕ) (e : ℤ) :
    b64Overflow m e ↔ (2 : ℚ) ^ (1024 : ℕ) ≤ (m : ℚ) * (2 : ℚ) ^ e := by
  unfold b64Overflow
  by_cases he : 0 ≤ e
  · rw [if_pos he]
    have hcast : ((e.toNat : ℕ) : ℤ) = e := Int.toNat_of_nonneg he
    have hz : (2 : ℚ) ^ e = (2 : ℚ) ^ e.toNat := by
      rw [← zpow_natCast (2 : ℚ) e.toNat, hcast]
    rw [hz]
    constructor
    · intro h
      have h2 : ((2 ^ 1024 : ℕ) : ℚ) ≤ ((m * 2 ^ e.toNat : ℕ) : ℚ) := by exact_mod_cast h
      push_cast at h2
      linarith
    · intro h
      have h2 : ((2 ^ 1024 : ℕ) : ℚ) ≤ ((m * 2 ^ e.toNat : ℕ) : ℚ) := by push_cast; linarith
      exact_mod_cast h2
  · rw [if_neg he]
    have hnn : (0 : ℤ) ≤ 1024 + -e := by omega
    have hcast : (((1024 + -e).toNat : ℕ) : ℤ) = 1024 + -e := Int.toNat_of_nonneg hnn
    have hsplit : (2 : ℚ) ^ ((1024 + -e).toNat) = (2 : ℚ) ^ (1024 : ℕ) * (2 : ℚ) ^ (-e) := by
      rw [show ((2 : ℚ) ^ ((1024 + -e).toNat) : ℚ) = (2 : ℚ) ^ (((1024 + -e).toNat : ℕ) : ℤ) by
        rw [zpow_natCast]]
      rw [hcast, zpow_add₀ (by norm_num : (2 : ℚ) ≠ 0)]
      norm_num
    constructor
    · intro h
      have h2 : ((2 ^ (1024 + -e).toNat : ℕ) : ℚ) ≤ ((m : ℕ) : ℚ) := by exact_mod_cast h
      push_cast at h2
      rw [hsplit] at h2
      calc (2 : ℚ) ^ (1024 : ℕ) = (2 : ℚ) ^ (1024 : ℕ) * (2 : ℚ) ^ (-e) * (2 : ℚ) ^ e := by
            rw [mul_assoc, ← zpow_add₀ (by norm_num : (2 : ℚ) ≠ 0)]
            norm_num
        _ ≤ (m : ℚ) * (2 : ℚ) ^ e := by
            have hpos : (0 : ℚ) < (2 : ℚ) ^ e := by positivity
            nlinarith
    · intro h
      have h2 : (2 : ℚ) ^ (1024 : ℕ) * (2 : ℚ) ^ (-e) ≤ (m : ℚ) := by
        have hpos : (0 : ℚ) < (2 : ℚ) ^ (-e) := by positivity
        have hinv : (2 : ℚ) ^ (-e) * (2 : ℚ) ^ e = 1 := by
          rw [← zpow_add₀ (by norm_num : (2 : ℚ) ≠ 0)]
          norm_num
        nlinarith
      rw [← hsplit] at h2
      have h3 : ((2 ^ (1024 + -e).toNat : ℕ) : ℚ) ≤ ((m : ℕ) : ℚ) := by push_cast; linarith
      exact_mod_cast h3

theorem pyFloatDiv_inv (a b m : ℕ) (e : ℤ) (h : pyFloatDiv a b = some (m, e)) :
    (a = 0 ∧ m = 0 ∧ e = 0) ∨
    (a ≠ 0 ∧ e = pyDivExp a b ∧
      m = roundHalfEvenNat (shiftFrac a b e).1 (shiftFrac a b e).2 ∧ ¬ b64Overflow m e) := by
  unfold pyFloatDiv at h
  by_cases ha : a = 0
  · left
    rw [if_pos ha] at h
    simp only [Option.some_inj, Prod.mk.injEq] at h
    exact ⟨ha, h.1.symm, h.2.symm⟩
  · right
    rw [if_neg ha] at h
    by_cases hov : b64Overflow (pyDivMantissa a b) (pyDivExp a b)
    · rw [if_pos hov] at h
      exact absurd h (by simp)
    · rw [if_neg hov] at h
      simp only [Option.some_inj, Prod.mk.injEq] at h
      refine ⟨ha, h.2.symm, ?_, ?_⟩
      · rw [← h.1]
        unfold pyDivMantissa
        rw [h.2]
      · rw [← h.1, ← h.2]; exact hov

theorem rhe_shift_upper (a b : ℕ) (e : ℤ) (hb : 0 < b) :
    ((roundHalfEvenNat (shiftFrac a b e).1 (shiftFrac a b e).2 : ℕ) : ℚ) * (2 : ℚ) ^ e ≤
      (a : ℚ) / b + (2 : ℚ) ^ (e - 1) := by
  have hp2 := (shiftFrac_val a b e hb).2
  have hpv := (shiftFrac_val a b e hb).1
  have hmQ : ((roundHalfEvenNat (shiftFrac a b e).1 (shiftFrac a b e).2 : ℕ) : ℚ) =
      ((rheQ (((a : ℚ) / b) * (2 : ℚ) ^ (-e)) : ℤ) : ℚ) := by
    rw [roundHalfEvenNat_cast _ _ hp2, hpv]
  have hle := rheQ_le (((a : ℚ) / b) * (2 : ℚ) ^ (-e))
  rw [← hmQ] at hle
  have hz : (0 : ℚ) < (2 : ℚ) ^ e := by positivity
  have hinv : (2 : ℚ) ^ (-e) * (2 : ℚ) ^ e = 1 := by
    rw [← zpow_add₀ (by norm_num : (2 : ℚ) ≠ 0)]
    norm_num
  have h2e : (2 : ℚ) ^ (e - 1) = (1 / 2) * (2 : ℚ) ^ e := by
    rw [zpow_sub₀ (by norm_num : (2 : ℚ) ≠ 0), zpow_one]
    ring
  have hmul := mul_le_mul_of_nonneg_right hle (le_of_lt hz)
  have hqq : ((a : ℚ) / b) * (2 : ℚ) ^ (-e) * (2 : ℚ) ^ e = (a : ℚ) / b := by
    rw [mul_assoc, hinv, mul_one]
  rw [add_mul, hqq] at hmul
  rw [h2e]
  linarith

theorem pyFloatDiv_bound (a b m : ℕ) (e : ℤ) (hb : 0 < b) (h : pyFloatDiv a b = some (m, e)) :
    |(m : ℚ) * (2 : ℚ) ^ e - (a : ℚ) / b| ≤ (2 : ℚ) ^ (e - 1) := by
  rcases pyFloatDiv_inv a b m e h with ⟨ha, hm, he⟩ | ⟨_, _, hm, _⟩
  · subst ha; subst hm; subst he
    simp only [Nat.cast_zero, zero_mul, Nat.cast_ofNat, zero_div, sub_zero, abs_zero]
    positivity
  · have hp2 := (shiftFrac_val a b e hb).2
    have hpv := (shiftFrac_val a b e hb).1
    have hmQ : (m : ℚ) = ((rheQ (((a : ℚ) / b) * (2 : ℚ) ^ (-e)) : ℤ) : ℚ) := by
      rw [hm, roundHalfEvenNat_cast _ _ hp2, hpv]
    have hle := rheQ_le (((a : ℚ) / b) * (2 : ℚ) ^ (-e))
    have hge := rheQ_ge (((a : ℚ) / b) * (2 : ℚ) ^ (-e))
    rw [← hmQ] at hle hge
    have habs : |(m : ℚ) - ((a : ℚ) / b) * (2 : ℚ) ^ (-e)| ≤ 1 / 2 :=
      abs_le.mpr ⟨by linarith, by linarith⟩
    have hz : (0 : ℚ) < (2 : ℚ) ^ e := by positivity
    have hinv : (2 : ℚ) ^ (-e) * (2 : ℚ) ^ e = 1 := by
      rw [← zpow_add₀ (by norm_num : (2 : ℚ) ≠ 0)]
      norm_num
    have hgoal : (m : ℚ) * (2 : ℚ) ^ e - (a : ℚ) / b =
        ((m : ℚ) - ((a : ℚ) / b) * (2 : ℚ) ^ (-e)) * (2 : ℚ) ^ e := by
      rw [sub_mul, mul_assoc, hinv, mul_one]
    have h2e : (2 : ℚ) ^ (e - 1) = (1 / 2) * (2 : ℚ) ^ e := by
      rw [zpow_sub₀ (by norm_num : (2 : ℚ) ≠ 0), zpow_one]
      ring
    rw [hgoal, abs_mul, abs_of_pos hz, h2e]
    exact mul_le_mul_of_nonneg_right habs (le_of_lt hz)

theorem pyFloatDiv_some (a b : ℕ) (hb : 0 < b)
    (hle : (a : ℚ) ≤ (2 : ℚ) ^ (1023 : ℕ) * b) :
    ∃ m e, pyFloatDiv a b = some (m, e) := by
  have hbQ : (0 : ℚ) < b := by exact_mod_cast hb
  by_cases ha : a = 0
  · exact ⟨0, 0, by simp [pyFloatDiv, ha]⟩
  · have haQ : (0 : ℚ) < a := by
      have : 0 < a := Nat.pos_of_ne_zero ha
      exact_mod_cast this
    have hq : (a : ℚ) / b ≤ (2 : ℚ) ^ (1023 : ℕ) := by
      rw [div_le_iff₀ hbQ]
      exact hle
    have hzle : (2 : ℚ) ^ (floorLog2Frac a b) ≤ (a : ℚ) / b :=
      floorLog2Frac_le a b (Nat.pos_of_ne_zero ha) hb
    have hz1023 : floorLog2Frac a b ≤ 1023 := by
      by_contra hcon
      push_neg at hcon
      have h1 : ((1024 : ℕ) : ℤ) ≤ floorLog2Frac a b := by exact_mod_cast hcon
      have h2 : (2 : ℚ) ^ ((1024 : ℕ) : ℤ) ≤ (2 : ℚ) ^ (floorLog2Frac a b) :=
        zpow_le_zpow_right₀ (by norm_num) h1
      rw [zpow_natCast] at h2
      have h3 : (2 : ℚ) ^ (1023 : ℕ) < (2 : ℚ) ^ (1024 : ℕ) := by
        apply pow_lt_pow_right₀ (by norm_num)
        omega
      linarith
    have he971 : pyDivExp a b - 1 ≤ 970 := by
      unfold pyDivExp
      omega
    have h2e : (2 : ℚ) ^ (pyDivExp a b - 1) ≤ (2 : ℚ) ^ ((970 : ℕ) : ℤ) :=
      zpow_le_zpow_right₀ (by norm_num) he971
    have hupper := rhe_shift_upper a b (pyDivExp a b) hb
    have hno : ¬ b64Overflow (pyDivMantissa a b) (pyDivExp a b) := by
      rw [b64Overflow_iff]
      push_neg
      have hfin : (a : ℚ) / b + (2 : ℚ) ^ (pyDivExp a b - 1) < (2 : ℚ) ^ (1024 : ℕ) := by
        have hstep1 : (2 : ℚ) ^ ((970 : ℕ) : ℤ) = (2 : ℚ) ^ (970 : ℕ) := zpow_natCast 2 970
        have hstep2 : (2 : ℚ) ^ (970 : ℕ) < (2 : ℚ) ^ (1023 : ℕ) := by
          apply pow_lt_pow_right₀ (by norm_num)
          omega
        have hstep3 : (2 : ℚ) ^ (1024 : ℕ) = 2 * (2 : ℚ) ^ (1023 : ℕ) := by
          rw [show (1024 : ℕ) = 1023 + 1 by norm_num, pow_succ]
          ring
        rw [hstep3]
        rw [hstep1] at h2e
        linarith
      calc (pyDivMantissa a b : ℚ) * (2 : ℚ) ^ (pyDivExp a b)
          ≤ (a : ℚ) / b + (2 : ℚ) ^ (pyDivExp a b - 1) := hupper
        _ < (2 : ℚ) ^ (1024 : ℕ) := hfin
    refine ⟨pyDivMantissa a b, pyDivExp a b, ?_⟩
    unfold pyFloatDiv
    rw [if_neg ha, if_neg hno]

theorem fix8OfFloat_eq (m : ℕ) (e : ℤ) :
    ((fix8OfFloat m e : ℕ) : ℤ) = rheQ ((m : ℚ) * (2 : ℚ) ^ e * 10 ^ 8) := by
  unfold fix8OfFloat
  by_cases he : 0 ≤ e
  · rw [if_pos he]
    have hcast : ((e.toNat : ℕ) : ℤ) = e := Int.toNat_of_nonneg he
    have hz : (2 : ℚ) ^ e = (2 : ℚ) ^ e.toNat := by
      rw [← zpow_natCast (2 : ℚ) e.toNat, hcast]
    have hq : (m : ℚ) * (2 : ℚ) ^ e * 10 ^ 8 = ((m * 10 ^ 8 * 2 ^ e.toNat : ℕ) : ℚ) := by
      push_cast
      rw [hz]
      ring
    rw [hq, rheQ_natCast]
  · rw [if_neg he]
    have hcast : (((-e).toNat : ℕ) : ℤ) = -e := Int.toNat_of_nonneg (by omega)
    have hp : (0 : ℕ) < 2 ^ (-e).toNat := Nat.pos_pow_of_pos _ (by norm_num)
    rw [roundHalfEvenNat_eq_rheQ _ _ hp]
    congr 1
    have hz : ((2 : ℚ) ^ ((-e).toNat : ℕ)) = (2 : ℚ) ^ (-e) := by
      rw [← zpow_natCast (2 : ℚ) (-e).toNat, hcast]
    have hinv : (2 : ℚ) ^ e * (2 : ℚ) ^ (-e) = 1 := by
      rw [← zpow_add₀ (by norm_num : (2 : ℚ) ≠ 0)]
      norm_num
    push_cast
    rw [hz, div_eq_iff (by positivity : (2 : ℚ) ^ (-e) ≠ 0)]
    rw [show (m : ℚ) * (2 : ℚ) ^ e * 10 ^ 8 * (2 : ℚ) ^ (-e) =
      (m : ℚ) * 10 ^ 8 * ((2 : ℚ) ^ e * (2 : ℚ) ^ (-e)) by ring, hinv, mul_one]
    norm_num

/-! ## Formatting level lemmas -/

theorem format_amount_pos (raw s : ℕ) (hs : s ≠ 0) (m : ℕ) (e : ℤ)
    (h : pyFloatDiv raw (10 ^ s) = some (m, e)) :
    _format_amount raw s =
      some (String.mk (rstrip '.' (rstrip '0' (fix8Render (fix8OfFloat m e))))) := by
  unfold _format_amount
  rw [if_neg hs, h]
  rfl

theorem strToRat_strip_fix8 (n : ℕ) :
    strToRat (String.mk (rstrip '.' (rstrip '0' (fix8Render n)))) = (n : ℚ) / 10 ^ 8 := by
  have h := parseDec_strip_fix8 n
  show ((parseDec (rstrip '.' (rstrip '0' (fix8Render n)))).1 : ℚ) /
      ((parseDec (rstrip '.' (rstrip '0' (fix8Render n)))).2 : ℚ) = (n : ℚ) / 10 ^ 8
  rw [div_eq_div_iff (by exact_mod_cast h.2.ne' : ((parseDec _).2 : ℚ) ≠ 0)
    (by norm_num : ((10 : ℚ) ^ 8) ≠ 0)]
  exact_mod_cast h.1

theorem format_amount_noTrailing (raw s : ℕ) (out : String)
    (h : _format_amount raw s = some out) : noTrailingJunk out := by
  unfold _format_amount at h
  by_cases hs : s = 0
  · rw [if_pos hs] at h
    simp only [Option.some_inj] at h
    subst h
    intro hdot
    exact absurd (natChars_ne_dot raw '.' hdot rfl) (by simp)
  · rw [if_neg hs] at h
    cases hd : pyFloatDiv raw (10 ^ s) with
    | none => rw [hd] at h; simp at h
    | some f =>
      rw [hd] at h
      simp only [Option.map_some', Option.some_inj] at h
      subst h
      exact noTrailingJunk_strip_fix8 _

theorem floorLog2Frac_nonneg (a b : ℕ) (h : b ≤ a) : 0 ≤ floorLog2Frac a b := by
  unfold floorLog2Frac
  rw [if_pos h]
  positivity

theorem floatIsExact_val (m : ℕ) (e : ℤ) (a b : ℕ) (hb : 0 < b)
    (h : floatIsExact (m, e) a b) : (m : ℚ) * (2 : ℚ) ^ e = (a : ℚ) / b := by
  have hbQ : (b : ℚ) ≠ 0 := by exact_mod_cast hb.ne'
  unfold floatIsExact at h
  by_cases he : 0 ≤ e
  · rw [if_pos he] at h
    have hcast : ((e.toNat : ℕ) : ℤ) = e := Int.toNat_of_nonneg he
    have hz : (2 : ℚ) ^ e = (2 : ℚ) ^ e.toNat := by
      rw [← zpow_natCast (2 : ℚ) e.toNat, hcast]
    have hQ : (a : ℚ) = (b : ℚ) * m * 2 ^ e.toNat := by exact_mod_cast congrArg (Nat.cast : ℕ → ℚ) h
    rw [hz, eq_div_iff hbQ, hQ]
    ring
  · rw [if_neg he] at h
    have hcast : (((-e).toNat : ℕ) : ℤ) = -e := Int.toNat_of_nonneg (by omega)
    have hz : (2 : ℚ) ^ ((-e).toNat : ℕ) = (2 : ℚ) ^ (-e) := by
      rw [← zpow_natCast (2 : ℚ) (-e).toNat, hcast]
    have hQ : (a : ℚ) * 2 ^ ((-e).toNat : ℕ) = (b : ℚ) * m := by
      exact_mod_cast congrArg (Nat.cast : ℕ → ℚ) h
    rw [hz] at hQ
    have hinv : (2 : ℚ) ^ e * (2 : ℚ) ^ (-e) = 1 := by
      rw [← zpow_add₀ (by norm_num : (2 : ℚ) ≠ 0)]
      norm_num
    calc (m : ℚ) * 2 ^ e = (b : ℚ) * m * 2 ^ e / b := by field_simp; ring
      _ = (a : ℚ) * 2 ^ (-e) * 2 ^ e / b := by rw [← hQ]
      _ = (a : ℚ) * ((2 : ℚ) ^ e * 2 ^ (-e)) / b := by ring
      _ = (a : ℚ) / b := by rw [hinv]; ring

theorem parseDec_natChars (n : ℕ) : parseDec (natChars n) = (n, 1) := by
  unfold parseDec
  have htake : (natChars n).takeWhile (fun c => c ≠ '.') = natChars n := by
    rw [List.takeWhile_eq_self_iff]
    intro x hx
    simpa using natChars_ne_dot _ x hx
  have hdrop : (natChars n).dropWhile (fun c => c ≠ '.') = [] := by
    rw [List.dropWhile_eq_nil_iff]
    intro x hx
    simpa using natChars_ne_dot _ x hx
  simp only [htake, hdrop, charsVal_natChars]

theorem strToRat_natStr (n : ℕ) : strToRat (natStr n) = n := by
  unfold strToRat natStr
  show ((parseDec (natChars n)).1 : ℚ) / ((parseDec (natChars n)).2 : ℚ) = n
  rw [parseDec_natChars]
  norm_num

/-! ## Concrete fixtures for witnesses and counterexamples -/

/-- A concrete stand-in for the checksum rendering, used to instantiate
the abstract parameter in closed statements. -/
def csF (s : String) : String := "#" ++ s

/-- Metadata outcomes of a fungible token: symbol TKN, 6 decimals. -/
def mdERC20 : String → MdOutcome := fun _ => { erc20Symbol := some ("TKN"), decimalsResult := some 6, erc721Symbol := none }

/-- Metadata outcomes with every call failing. -/
def mdFail : String → MdOutcome := fun _ => { erc20Symbol := none, decimalsResult := none, erc721Symbol := none }

/-- Byte string of the Transfer signature hash, bytes in decimal. -/
def sigTransferBytes : List ℕ :=
  [221, 242, 82, 173, 27, 226, 200, 155, 105, 194, 176, 104, 252, 55, 141, 170,
   149, 43, 167, 241, 99, 196, 161, 22, 40, 245, 90, 77, 245, 35, 179, 239]

/-- Byte string of the Approval signature hash, bytes in decimal. -/
def sigApprovalBytes : List ℕ :=
  [140, 91, 225, 229, 235, 236, 125, 91, 209, 79, 113, 66, 125, 30, 132, 243,
   221, 3, 20, 192, 247, 178, 41, 30, 91, 32, 10, 200, 199, 195, 185, 37]

/-- Byte string of the TransferSingle signature hash, bytes in decimal. -/
def sigSingleBytes : List ℕ :=
  [195, 213, 129, 104, 197, 174, 115, 151, 115, 29, 6, 61, 91, 191, 61, 101,
   120, 84, 66, 115, 67, 244, 192, 131, 36, 15, 122, 172, 170, 45, 15, 98]

/-- Byte string of the TransferBatch signature hash, bytes in decimal. -/
def sigBatchBytes : List ℕ :=
  [74, 57, 220, 6, 212, 192, 219, 198, 75, 112, 175, 144, 253, 105, 138, 35,
   58, 81, 138, 165, 208, 126, 89, 93, 152, 59, 140, 5, 38, 200, 247, 251]

/-- A 32-byte topic word holding a small address value. -/
def addrTopic (b : ℕ) : List ℕ := List.replicate 31 0 ++ [b]

/-- A 20-byte token contract address. -/
def tokenAddrBytes : List ℕ := List.replicate 19 0 ++ [0xaa]

/-- A well-formed Transfer log with the given data payload. -/
def transferLog (data : List ℕ) : LogEntry :=
  { address := tokenAddrBytes, topics := [sigTransferBytes, addrTopic 1, addrTopic 2], data := data }

/-! ## Branch characterizations of processLog -/

theorem sig_transfer_mem : (SIG_TRANSFER ∈ KNOWN_SIGS) = True := by simp [KNOWN_SIGS]

theorem sig_single_mem : (SIG_TF_SINGLE ∈ KNOWN_SIGS) = True := by simp [KNOWN_SIGS]

theorem sig_batch_mem : (SIG_TF_BATCH ∈ KNOWN_SIGS) = True := by simp [KNOWN_SIGS]

theorem sig_approval_mem : (SIG_APPROVAL ∈ KNOWN_SIGS) = True := by simp [KNOWN_SIGS]

theorem sig_single_ne_transfer : (SIG_TF_SINGLE = SIG_TRANSFER) = False := by decide

theorem sig_batch_ne_transfer : (SIG_TF_BATCH = SIG_TRANSFER) = False := by decide

theorem sig_batch_ne_single : (SIG_TF_BATCH = SIG_TF_SINGLE) = False := by decide

theorem sig_approval_ne_transfer : (SIG_APPROVAL = SIG_TRANSFER) = False := by decide

theorem sig_approval_ne_single : (SIG_APPROVAL = SIG_TF_SINGLE) = False := by decide

theorem sig_approval_ne_batch : (SIG_APPROVAL = SIG_TF_BATCH) = False := by decide

theorem processLog_transfer_eq (cs : String → String) (md : String → MdOutcome)
    (lg : LogEntry) (t0 t1 t2 : List ℕ)
    (h0 : lg.topics.head? = some t0) (hs : pyHex t0 = SIG_TRANSFER)
    (h1 : lg.topics[1]? = some t1) (h2 : lg.topics[2]? = some t2) :
    processLog cs md lg =
      ([cs (pyHex lg.address)],
        if (_safe_symbol_and_decimals (md (cs (pyHex lg.address)))).2.2 = "ERC721" ∨
            ((_safe_symbol_and_decimals (md (cs (pyHex lg.address)))).2.1 = 0 ∧
              beBytesToNat lg.data < 10 ^ 10) then
          Except.ok (some (LogRecord.transfer
            { token := cs (pyHex lg.address),
              symbol := (_safe_symbol_and_decimals (md (cs (pyHex lg.address)))).1,
              standard := "ERC721",
              from_addr := cs (topicAddrStr t1), to_addr := cs (topicAddrStr t2),
              amount := "1", raw_amount := beBytesToNat lg.data,
              token_id := some (beBytesToNat lg.data) }))
        else
          match _format_amount (beBytesToNat lg.data)
              (_safe_symbol_and_decimals (md (cs (pyHex lg.address)))).2.1 with
          | some str => Except.ok (some (LogRecord.transfer
              { token := cs (pyHex lg.address),
                symbol := (_safe_symbol_and_decimals (md (cs (pyHex lg.address)))).1,
                standard := "ERC20",
                from_addr := cs (topicAddrStr t1), to_addr := cs (topicAddrStr t2),
                amount := str, raw_amount := beBytesToNat lg.data,
                token_id := none }))
          | none => Except.error PyErr.overflowError) := by
  unfold processLog processLogTrace processLogResult
  rw [h0]
  simp only [hs, h1, h2, if_pos rfl, sig_transfer_mem, if_true]

theorem processLog_single_eq (cs : String → String) (md : String → MdOutcome)
    (lg : LogEntry) (t0 t2 t3 : List ℕ)
    (h0 : lg.topics.head? = some t0) (hs : pyHex t0 = SIG_TF_SINGLE)
    (h2 : lg.topics[2]? = some t2) (h3 : lg.topics[3]? = some t3) :
    processLog cs md lg =
      ([cs (pyHex lg.address)],
        Except.ok (some (LogRecord.transfer
          { token := cs (pyHex lg.address),
            symbol := (_safe_symbol_and_decimals (md (cs (pyHex lg.address)))).1,
            standard := "ERC1155",
            from_addr := cs (topicAddrStr t2), to_addr := cs (topicAddrStr t3),
            amount := natStr (beBytesToNat ((lg.data.drop 32).take 32)),
            raw_amount := beBytesToNat ((lg.data.drop 32).take 32),
            token_id := some (beBytesToNat (lg.data.take 32)) }))) := by
  unfold processLog processLogTrace processLogResult
  rw [h0]
  simp only [hs, h2, h3, sig_single_ne_transfer, sig_single_mem, if_true, if_false,
    if_pos rfl]

theorem processLog_batch_eq (cs : String → String) (md : String → MdOutcome)
    (lg : LogEntry) (t0 t2 t3 : List ℕ)
    (h0 : lg.topics.head? = some t0) (hs : pyHex t0 = SIG_TF_BATCH)
    (h2 : lg.topics[2]? = some t2) (h3 : lg.topics[3]? = some t3) :
    processLog cs md lg =
      ([cs (pyHex lg.address)],
        Except.ok (some (LogRecord.transfer
          { token := cs (pyHex lg.address),
            symbol := (_safe_symbol_and_decimals (md (cs (pyHex lg.address)))).1,
            standard := "ERC1155",
            from_addr := cs (topicAddrStr t2), to_addr := cs (topicAddrStr t3),
            amount := "BATCH", raw_amount := 0, token_id := none }))) := by
  unfold processLog processLogTrace processLogResult
  rw [h0]
  simp only [hs, h2, h3, sig_batch_ne_transfer, sig_batch_ne_single, sig_batch_mem,
    if_true, if_false, if_pos rfl]

theorem processLog_approval_eq (cs : String → String) (md : String → MdOutcome)
    (lg : LogEntry) (t0 t1 t2 : List ℕ)
    (h0 : lg.topics.head? = some t0) (hs : pyHex t0 = SIG_APPROVAL)
    (h1 : lg.topics[1]? = some t1) (h2 : lg.topics[2]? = some t2) :
    processLog cs md lg =
      ([cs (pyHex lg.address)],
        match _format_amount (beBytesToNat lg.data)
            (_safe_symbol_and_decimals (md (cs (pyHex lg.address)))).2.1 with
        | some str => Except.ok (some (LogRecord.approval
            { token := cs (pyHex lg.address),
              symbol := (_safe_symbol_and_decimals (md (cs (pyHex lg.address)))).1,
              owner := cs (topicAddrStr t1), spender := cs (topicAddrStr t2),
              amount := str, raw_amount := beBytesToNat lg.data }))
        | none => Except.error PyErr.overflowError) := by
  unfold processLog processLogTrace processLogResult
  rw [h0]
  simp only [hs, h1, h2, sig_approval_ne_transfer, sig_approval_ne_single,
    sig_approval_ne_batch, sig_approval_mem, if_true, if_false, if_pos rfl]

theorem processLog_unrecognized (cs : String → String) (md : String → MdOutcome)
    (lg : LogEntry) (t0 : List ℕ)
    (h0 : lg.topics.head? = some t0) (hs : pyHex t0 ∉ KNOWN_SIGS) :
    processLog cs md lg = ([], Except.ok none) := by
  have hns : ∀ s ∈ KNOWN_SIGS, (pyHex t0 = s) = False := by
    intro s hmem
    by_cases h : pyHex t0 = s
    · exact absurd (h ▸ hmem) hs
    · simp [h]
  have h1 := hns SIG_TRANSFER (by simp [KNOWN_SIGS])
  have h2 := hns SIG_TF_SINGLE (by simp [KNOWN_SIGS])
  have h3 := hns SIG_TF_BATCH (by simp [KNOWN_SIGS])
  have h4 := hns SIG_APPROVAL (by simp [KNOWN_SIGS])
  have hmem : (pyHex t0 ∈ KNOWN_SIGS) = False := by simp [hs]
  unfold processLog processLogTrace processLogResult
  rw [h0]
  simp only [h1, h2, h3, h4, hmem, if_false]

theorem processLog_no_topics (cs : String → String) (md : String → MdOutcome)
    (lg : LogEntry) (h0 : lg.topics.head? = none) :
    processLog cs md lg = ([], Except.error PyErr.indexError) := by
  unfold processLog processLogTrace processLogResult
  rw [h0]

/-! ## Metadata resolution lemmas -/

theorem safe_standard_iff (o : MdOutcome) :
    (_safe_symbol_and_decimals o).2.2 = "ERC721" ↔ o.decimalsResult = none := by
  obtain ⟨s20, dres, s721⟩ := o
  cases dres with
  | none => simp [_safe_symbol_and_decimals]
  | some d =>
    simp only [_safe_symbol_and_decimals]
    constructor
    · intro h
      exact absurd h (by decide)
    · intro h
      exact absurd h (by simp)

/-! ## Size bound for big-endian byte values -/

theorem beBytesToNat_aux : ∀ bs : List ℕ, (∀ x ∈ bs, x < 256) → ∀ acc : ℕ,
    bs.foldl (fun a b => 256 * a + b) acc < (acc + 1) * 256 ^ bs.length := by
  intro bs
  induction bs with
  | nil => intro _ acc; simp
  | cons b rest ih =>
    intro h acc
    have hb : b < 256 := h b (List.mem_cons_self b rest)
    have hr := ih (fun x hx => h x (List.mem_cons_of_mem b hx)) (256 * acc + b)
    have hstep : (256 * acc + b + 1) * 256 ^ rest.length ≤ (acc + 1) * 256 ^ (rest.length + 1) := by
      have h1 : 256 * acc + b + 1 ≤ (acc + 1) * 256 := by omega
      calc (256 * acc + b + 1) * 256 ^ rest.length
          ≤ ((acc + 1) * 256) * 256 ^ rest.length := Nat.mul_le_mul_right _ h1
        _ = (acc + 1) * 256 ^ (rest.length + 1) := by ring
    calc (b :: rest).foldl (fun a b => 256 * a + b) acc
        = rest.foldl (fun a b => 256 * a + b) (256 * acc + b) := rfl
      _ < (256 * acc + b + 1) * 256 ^ rest.length := hr
      _ ≤ (acc + 1) * 256 ^ (rest.length + 1) := hstep
      _ = (acc + 1) * 256 ^ (b :: rest).length := by rw [List.length_cons]

theorem beBytesToNat_lt (bs : List ℕ) (h : ∀ x ∈ bs, x < 256) :
    beBytesToNat bs < 256 ^ bs.length := by
  have := beBytesToNat_aux bs h 0
  simpa [beBytesToNat] using this

theorem beBytesToNat_le_b64 (bs : List ℕ) (h : ∀ x ∈ bs, x < 256) (hl : bs.length ≤ 31) :
    (beBytesToNat bs : ℚ) ≤ (2 : ℚ) ^ (1023 : ℕ) := by
  have h1 : beBytesToNat bs < 2 ^ 1023 := by
    calc beBytesToNat bs < 256 ^ bs.length := beBytesToNat_lt bs h
      _ ≤ 256 ^ 31 := Nat.pow_le_pow_right (by norm_num) hl
      _ = 2 ^ 248 := by norm_num
      _ ≤ 2 ^ 1023 := Nat.pow_le_pow_right (by norm_num) (by norm_num)
  have h2 : (beBytesToNat bs : ℚ) ≤ ((2 ^ 1023 : ℕ) : ℚ) := by
    exact_mod_cast le_of_lt h1
  calc (beBytesToNat bs : ℚ) ≤ ((2 ^ 1023 : ℕ) : ℚ) := h2
    _ = (2 : ℚ) ^ (1023 : ℕ) := by exact_mod_cast rfl

theorem format_amount_total (raw d : ℕ) (h : (raw : ℚ) ≤ (2 : ℚ) ^ (1023 : ℕ)) :
    ∃ str, _format_amount raw d = some str := by
  by_cases hd : d = 0
  · exact ⟨natStr raw, by unfold _format_amount; rw [if_pos hd]⟩
  · have hb : (0 : ℕ) < 10 ^ d := by positivity
    have hle : (raw : ℚ) ≤ (2 : ℚ) ^ (1023 : ℕ) * ((10 ^ d : ℕ) : ℚ) := by
      have h10 : (1 : ℚ) ≤ ((10 ^ d : ℕ) : ℚ) := by
        have : (1 : ℕ) ≤ 10 ^ d := Nat.one_le_pow _ _ (by norm_num)
        exact_mod_cast this
      nlinarith [pow_pos (show (0 : ℚ) < 2 by norm_num) 1023]
    obtain ⟨m, e, hdiv⟩ := pyFloatDiv_some raw (10 ^ d) hb hle
    exact ⟨_, format_amount_pos raw d hd m e hdiv⟩

/-! ## Claim C1: Transfer-topic standard classification -/

/-- Claim C1: a Transfer-topic log that yields a transfer record is
classified ERC721 with token-id equal to the raw amount and displayed
amount 1 exactly when the decimals lookup failed (the provisional
standard is then the non-fungible one) or the resolved decimals are 0
with the raw amount below 10^10; in every other case the record is
ERC20, its token-id is absent, and its amount string is the formatting
of the raw amount at the resolved decimal scale. -/
theorem C1_transfer_classification (cs : String → String) (md : String → MdOutcome)
    (lg : LogEntry) (t0 t1 t2 : List ℕ) (r : TokenTransfer)
    (h0 : lg.topics.head? = some t0) (hs : pyHex t0 = SIG_TRANSFER)
    (h1 : lg.topics[1]? = some t1) (h2 : lg.topics[2]? = some t2)
    (hr : (processLog cs md lg).2 = .ok (some (.transfer r))) :
    r.raw_amount = beBytesToNat lg.data ∧
    ((r.standard = "ERC721" ∧ r.token_id = some r.raw_amount ∧ r.amount = "1") ↔
      ((md (cs (pyHex lg.address))).decimalsResult = none ∨
        ((_safe_symbol_and_decimals (md (cs (pyHex lg.address)))).2.1 = 0 ∧
          beBytesToNat lg.data < 10 ^ 10))) ∧
    (¬ ((md (cs (pyHex lg.address))).decimalsResult = none ∨
        ((_safe_symbol_and_decimals (md (cs (pyHex lg.address)))).2.1 = 0 ∧
          beBytesToNat lg.data < 10 ^ 10)) →
      r.standard = "ERC20" ∧ r.token_id = none ∧
        _format_amount (beBytesToNat lg.data)
          ((_safe_symbol_and_decimals (md (cs (pyHex lg.address)))).2.1) = some r.amount) := by
  rw [processLog_transfer_eq cs md lg t0 t1 t2 h0 hs h1 h2] at hr
  have hiff : ((md (cs (pyHex lg.address))).decimalsResult = none ∨
      ((_safe_symbol_and_decimals (md (cs (pyHex lg.address)))).2.1 = 0 ∧
        beBytesToNat lg.data < 10 ^ 10)) ↔
      ((_safe_symbol_and_decimals (md (cs (pyHex lg.address)))).2.2 = "ERC721" ∨
      ((_safe_symbol_and_decimals (md (cs (pyHex lg.address)))).2.1 = 0 ∧
        beBytesToNat lg.data < 10 ^ 10)) := by
    rw [safe_standard_iff]
  have hX : (if (_safe_symbol_and_decimals (md (cs (pyHex lg.address)))).2.2 = "ERC721" ∨
      ((_safe_symbol_and_decimals (md (cs (pyHex lg.address)))).2.1 = 0 ∧
        beBytesToNat lg.data < 10 ^ 10) then
      Except.ok (some (LogRecord.transfer
        { token := cs (pyHex lg.address),
          symbol := (_safe_symbol_and_decimals (md (cs (pyHex lg.address)))).1,
          standard := "ERC721",
          from_addr := cs (topicAddrStr t1), to_addr := cs (topicAddrStr t2),
          amount := "1", raw_amount := beBytesToNat lg.data,
          token_id := some (beBytesToNat lg.data) }))
    else
      match _format_amount (beBytesToNat lg.data)
          (_safe_symbol_and_decimals (md (cs (pyHex lg.address)))).2.1 with
      | some str => Except.ok (some (LogRecord.transfer
          { token := cs (pyHex lg.address),
            symbol := (_safe_symbol_and_decimals (md (cs (pyHex lg.address)))).1,
            standard := "ERC20",
            from_addr := cs (topicAddrStr t1), to_addr := cs (topicAddrStr t2),
            amount := str, raw_amount := beBytesToNat lg.data,
            token_id := none }))
      | none => Except.error PyErr.overflowError) = .ok (some (.transfer r)) := hr
  by_cases hc : (_safe_symbol_and_decimals (md (cs (pyHex lg.address)))).2.2 = "ERC721" ∨
      ((_safe_symbol_and_decimals (md (cs (pyHex lg.address)))).2.1 = 0 ∧
        beBytesToNat lg.data < 10 ^ 10)
  · rw [if_pos hc] at hX
    simp only [Except.ok.injEq, Option.some.injEq, LogRecord.transfer.injEq] at hX
    subst hX
    refine ⟨rfl, iff_of_true ⟨rfl, rfl, rfl⟩ (hiff.mpr hc), fun hn => absurd (hiff.mpr hc) hn⟩
  · rw [if_neg hc] at hX
    cases hfa : _format_amount (beBytesToNat lg.data)
        (_safe_symbol_and_decimals (md (cs (pyHex lg.address)))).2.1 with
    | none =>
      rw [hfa] at hX
      exact absurd hX (by simp)
    | some str =>
      rw [hfa] at hX
      simp only [Except.ok.injEq, Option.some.injEq, LogRecord.transfer.injEq] at hX
      subst hX
      refine ⟨rfl, iff_of_false ?_ (fun hcl => hc (hiff.mp hcl)), fun _ => ⟨rfl, rfl, rfl⟩⟩
      intro hcon
      have h20 : ("ERC20" : String) = "ERC721" := hcon.1
      exact absurd h20 (by decide)

/-- The transfer record the witness log of C1 produces under failing
metadata lookups. -/
def c1Record : TokenTransfer :=
  { token := csF (pyHex tokenAddrBytes), symbol := "UNKNOWN", standard := "ERC721",
    from_addr := csF (topicAddrStr (addrTopic 1)),
    to_addr := csF (topicAddrStr (addrTopic 2)),
    amount := "1", raw_amount := 3, token_id := some 3 }

/-- Witness for C1: a Transfer log with raw amount 3 on a token whose
metadata lookups all fail classifies as ERC721 with token-id 3 and
amount 1, and the classification condition holds. -/
theorem C1_transfer_classification_witness :
    (c1Record.standard = "ERC721" ∧ c1Record.token_id = some c1Record.raw_amount ∧
      c1Record.amount = "1") ∧
    ((mdFail (csF (pyHex (transferLog [3]).address))).decimalsResult = none ∨
      ((_safe_symbol_and_decimals (mdFail (csF (pyHex (transferLog [3]).address)))).2.1 = 0 ∧
        beBytesToNat (transferLog [3]).data < 10 ^ 10)) := by
  have h := C1_transfer_classification csF mdFail (transferLog [3]) sigTransferBytes
    (addrTopic 1) (addrTopic 2) c1Record rfl (by decide) rfl rfl (by rfl)
  exact ⟨⟨rfl, rfl, rfl⟩, h.2.1.mp ⟨rfl, rfl, rfl⟩⟩

/-! ## Claim C3: metadata resolution policy -/

/-- Claim C3 as stated is false: when the fungible symbol lookup
succeeds, the decimals lookup fails, and the non-fungible symbol retry
also fails, the symbol keeps the fungible lookup result instead of
falling back to UNKNOWN. -/
theorem C3_counterexample :
    ¬ (∀ o : MdOutcome, o.decimalsResult = none → o.erc721Symbol = none →
      (_safe_symbol_and_decimals o).1 = "UNKNOWN") := by
  intro h
  have hx := h { erc20Symbol := some ("FOO"), decimalsResult := none, erc721Symbol := none }
    rfl rfl
  exact absurd hx (by decide)

/-- Claim C3 (amended): metadata resolution is total.  When the
decimals lookup fails, the resolved decimals are 0, the provisional
standard is the non-fungible one, and the symbol is taken from the
non-fungible retry, keeping the earlier fungible lookup result when the
retry fails and UNKNOWN only when both symbol calls failed.  When the
decimals lookup succeeds, its value is used as-is, the token is
provisionally fungible, and the symbol is the fungible lookup result
defaulting to UNKNOWN. -/
theorem C3_amended (o : MdOutcome) :
    (o.decimalsResult = none →
      (_safe_symbol_and_decimals o).2.1 = 0 ∧
      (_safe_symbol_and_decimals o).2.2 = "ERC721" ∧
      (_safe_symbol_and_decimals o).1 =
        o.erc721Symbol.getD (o.erc20Symbol.getD ("UNKNOWN"))) ∧
    (∀ d, o.decimalsResult = some d →
      (_safe_symbol_and_decimals o).2.1 = d ∧
      (_safe_symbol_and_decimals o).2.2 = "ERC20" ∧
      (_safe_symbol_and_decimals o).1 = o.erc20Symbol.getD ("UNKNOWN")) := by
  obtain ⟨s20, dres, s721⟩ := o
  constructor
  · intro h
    cases h
    exact ⟨rfl, rfl, rfl⟩
  · intro d h
    cases h
    exact ⟨rfl, rfl, rfl⟩

/-- Witness for C3_amended: with a successful fungible symbol FOO and
both other calls failing, resolution yields decimals 0, standard ERC721,
and symbol FOO. -/
theorem C3_amended_witness :
    (_safe_symbol_and_decimals
      { erc20Symbol := some ("FOO"), decimalsResult := none, erc721Symbol := none }).2.1 = 0 ∧
    (_safe_symbol_and_decimals
      { erc20Symbol := some ("FOO"), decimalsResult := none, erc721Symbol := none }).2.2 =
        "ERC721" ∧
    (_safe_symbol_and_decimals
      { erc20Symbol := some ("FOO"), decimalsResult := none, erc721Symbol := none }).1 =
        "FOO" := by
  have h := (C3_amended
    { erc20Symbol := some ("FOO"), decimalsResult := none, erc721Symbol := none }).1 rfl
  exact ⟨h.1, h.2.1, h.2.2.trans rfl⟩

/-! ## Hex slicing lemmas for address extraction -/

theorem hexChars_length (bs : List ℕ) : (hexChars bs).length = 2 * bs.length := by
  induction bs with
  | nil => rfl
  | cons b rest ih =>
    show (byteHexChars b ++ hexChars rest).length = 2 * (rest.length + 1)
    rw [List.length_append, ih]
    show 2 + 2 * rest.length = 2 * (rest.length + 1)
    ring

theorem hexChars_drop (bs : List ℕ) (k : ℕ) :
    (hexChars bs).drop (2 * k) = hexChars (bs.drop k) := by
  induction bs generalizing k with
  | nil => simp [hexChars]
  | cons b rest ih =>
    cases k with
    | zero => simp
    | succ k2 =>
      show (byteHexChars b ++ hexChars rest).drop (2 * (k2 + 1)) = hexChars (rest.drop k2)
      have hsh : 2 * (k2 + 1) = 2 * k2 + 1 + 1 := by ring
      rw [hsh]
      show (hexChars rest).drop (2 * k2) = hexChars (rest.drop k2)
      exact ih k2

theorem topicAddrStr_32 (t : List ℕ) (h : t.length = 32) :
    topicAddrStr t = "0x" ++ String.mk (hexChars (t.drop 12)) := by
  unfold topicAddrStr takeLast
  congr 2
  have hlen : ('0' :: 'x' :: hexChars t).length = 66 := by
    simp [hexChars_length, h]
  rw [hlen]
  show ('0' :: 'x' :: hexChars t).drop 26 = hexChars (t.drop 12)
  show (hexChars t).drop 24 = hexChars (t.drop 12)
  exact hexChars_drop t 12

/-! ## Claim C7: ERC1155 events -/

/-- Claim C7: a TransferSingle-topic log (with its from and to topics
and a payload of at least 64 bytes) yields an ERC1155 transfer whose
token-id and raw amount are the first and second 32-byte big-endian
words of the payload; a TransferBatch-topic log yields an ERC1155
transfer with amount BATCH, raw amount 0 and no token-id — under every
metadata lookup outcome (md is universally quantified). -/
theorem C7_erc1155 (cs : String → String) (md : String → MdOutcome)
    (lg : LogEntry) (t0 t2 t3 : List ℕ)
    (h0 : lg.topics.head? = some t0)
    (h2 : lg.topics[2]? = some t2) (h3 : lg.topics[3]? = some t3) :
    (pyHex t0 = SIG_TF_SINGLE → 64 ≤ lg.data.length →
      (processLog cs md lg).2 = .ok (some (.transfer
        { token := cs (pyHex lg.address),
          symbol := (_safe_symbol_and_decimals (md (cs (pyHex lg.address)))).1,
          standard := "ERC1155",
          from_addr := cs (topicAddrStr t2), to_addr := cs (topicAddrStr t3),
          amount := natStr (beBytesToNat ((lg.data.drop 32).take 32)),
          raw_amount := beBytesToNat ((lg.data.drop 32).take 32),
          token_id := some (beBytesToNat (lg.data.take 32)) }))) ∧
    (pyHex t0 = SIG_TF_BATCH →
      (processLog cs md lg).2 = .ok (some (.transfer
        { token := cs (pyHex lg.address),
          symbol := (_safe_symbol_and_decimals (md (cs (pyHex lg.address)))).1,
          standard := "ERC1155",
          from_addr := cs (topicAddrStr t2), to_addr := cs (topicAddrStr t3),
          amount := "BATCH", raw_amount := 0, token_id := none }))) := by
  constructor
  · intro hs _
    rw [processLog_single_eq cs md lg t0 t2 t3 h0 hs h2 h3]
  · intro hs
    rw [processLog_batch_eq cs md lg t0 t2 t3 h0 hs h2 h3]

/-- A TransferSingle log whose payload encodes token-id 0 then amount 5,
the spec example. -/
def singleLog : LogEntry :=
  { address := tokenAddrBytes,
    topics := [sigSingleBytes, addrTopic 9, addrTopic 1, addrTopic 2],
    data := List.replicate 32 0 ++ (List.replicate 31 0 ++ [5]) }

/-- Witness for C7 on the spec example log: the decoded record is
ERC1155 with token-id 0 and amount 5. -/
theorem C7_erc1155_witness :
    (processLog csF mdFail singleLog).2 = .ok (some (.transfer
      { token := csF (pyHex singleLog.address),
        symbol := (_safe_symbol_and_decimals (mdFail (csF (pyHex singleLog.address)))).1,
        standard := "ERC1155",
        from_addr := csF (topicAddrStr (addrTopic 1)),
        to_addr := csF (topicAddrStr (addrTopic 2)),
        amount := natStr (beBytesToNat ((singleLog.data.drop 32).take 32)),
        raw_amount := beBytesToNat ((singleLog.data.drop 32).take 32),
        token_id := some (beBytesToNat (singleLog.data.take 32)) })) ∧
    beBytesToNat (singleLog.data.take 32) = 0 ∧
    beBytesToNat ((singleLog.data.drop 32).take 32) = 5 ∧
    natStr (beBytesToNat ((singleLog.data.drop 32).take 32)) = "5" :=
  ⟨(C7_erc1155 csF mdFail singleLog sigSingleBytes (addrTopic 1) (addrTopic 2)
      rfl rfl rfl).1 (by decide) (by decide),
    by decide, by decide, by decide⟩

/-! ## Claim C8: address extraction and checksumming -/

theorem transfer_fields (cs : String → String) (md : String → MdOutcome)
    (lg : LogEntry) (t0 t1 t2 : List ℕ) (r : TokenTransfer)
    (h0 : lg.topics.head? = some t0) (hs : pyHex t0 = SIG_TRANSFER)
    (h1 : lg.topics[1]? = some t1) (h2 : lg.topics[2]? = some t2)
    (hr : (processLog cs md lg).2 = .ok (some (.transfer r))) :
    r.token = cs (pyHex lg.address) ∧
    r.from_addr = cs (topicAddrStr t1) ∧ r.to_addr = cs (topicAddrStr t2) := by
  rw [processLog_transfer_eq cs md lg t0 t1 t2 h0 hs h1 h2] at hr
  have hX : (if (_safe_symbol_and_decimals (md (cs (pyHex lg.address)))).2.2 = "ERC721" ∨
      ((_safe_symbol_and_decimals (md (cs (pyHex lg.address)))).2.1 = 0 ∧
        beBytesToNat lg.data < 10 ^ 10) then
      Except.ok (some (LogRecord.transfer
        { token := cs (pyHex lg.address),
          symbol := (_safe_symbol_and_decimals (md (cs (pyHex lg.address)))).1,
          standard := "ERC721",
          from_addr := cs (topicAddrStr t1), to_addr := cs (topicAddrStr t2),
          amount := "1", raw_amount := beBytesToNat lg.data,
          token_id := some (beBytesToNat lg.data) }))
    else
      match _format_amount (beBytesToNat lg.data)
          (_safe_symbol_and_decimals (md (cs (pyHex lg.address)))).2.1 with
      | some str => Except.ok (some (LogRecord.transfer
          { token := cs (pyHex lg.address),
            symbol := (_safe_symbol_and_decimals (md (cs (pyHex lg.address)))).1,
            standard := "ERC20",
            from_addr := cs (topicAddrStr t1), to_addr := cs (topicAddrStr t2),
            amount := str, raw_amount := beBytesToNat lg.data,
            token_id := none }))
      | none => Except.error PyErr.overflowError) = .ok (some (.transfer r)) := hr
  by_cases hc : (_safe_symbol_and_decimals (md (cs (pyHex lg.address)))).2.2 = "ERC721" ∨
      ((_safe_symbol_and_decimals (md (cs (pyHex lg.address)))).2.1 = 0 ∧
        beBytesToNat lg.data < 10 ^ 10)
  · rw [if_pos hc] at hX
    simp only [Except.ok.injEq, Option.some.injEq, LogRecord.transfer.injEq] at hX
    subst hX
    exact ⟨rfl, rfl, rfl⟩
  · rw [if_neg hc] at hX
    cases hfa : _format_amount (beBytesToNat lg.data)
        (_safe_symbol_and_decimals (md (cs (pyHex lg.address)))).2.1 with
    | none =>
      rw [hfa] at hX
      exact absurd hX (by simp)
    | some str =>
      rw [hfa] at hX
      simp only [Except.ok.injEq, Option.some.injEq, LogRecord.transfer.injEq] at hX
      subst hX
      exact ⟨rfl, rfl, rfl⟩

theorem approval_fields (cs : String → String) (md : String → MdOutcome)
    (lg : LogEntry) (t0 t1 t2 : List ℕ) (a : ApprovalChange)
    (h0 : lg.topics.head? = some t0) (hs : pyHex t0 = SIG_APPROVAL)
    (h1 : lg.topics[1]? = some t1) (h2 : lg.topics[2]? = some t2)
    (hr : (processLog cs md lg).2 = .ok (some (.approval a))) :
    a.token = cs (pyHex lg.address) ∧
    a.owner = cs (topicAddrStr t1) ∧ a.spender = cs (topicAddrStr t2) := by
  rw [processLog_approval_eq cs md lg t0 t1 t2 h0 hs h1 h2] at hr
  have hX : (match _format_amount (beBytesToNat lg.data)
      (_safe_symbol_and_decimals (md (cs (pyHex lg.address)))).2.1 with
    | some str => Except.ok (some (LogRecord.approval
        { token := cs (pyHex lg.address),
          symbol := (_safe_symbol_and_decimals (md (cs (pyHex lg.address)))).1,
          owner := cs (topicAddrStr t1), spender := cs (topicAddrStr t2),
          amount := str, raw_amount := beBytesToNat lg.data }))
    | none => Except.error PyErr.overflowError) = .ok (some (.approval a)) := hr
  cases hfa : _format_amount (beBytesToNat lg.data)
      (_safe_symbol_and_decimals (md (cs (pyHex lg.address)))).2.1 with
  | none =>
    rw [hfa] at hX
    exact absurd hX (by simp)
  | some str =>
    rw [hfa] at hX
    simp only [Except.ok.injEq, Option.some.injEq, LogRecord.approval.injEq] at hX
    subst hX
    exact ⟨rfl, rfl, rfl⟩

/-- Claim C8: for 32-byte topics, each stored address is the checksum
rendering of exactly the rightmost 20 bytes of the topic in the fixed
role positions of each event kind (Transfer from/to at topics 1 and 2,
Approval owner/spender at topics 1 and 2, TransferSingle and
TransferBatch from/to at topics 2 and 3), and every stored address —
the token contract address included — is an output of the checksum
rendering cs. -/
theorem C8_address_extraction (cs : String → String) (md : String → MdOutcome)
    (lg : LogEntry) (t0 : List ℕ) (h0 : lg.topics.head? = some t0) :
    (∀ t1 t2 r, pyHex t0 = SIG_TRANSFER →
      lg.topics[1]? = some t1 → t1.length = 32 →
      lg.topics[2]? = some t2 → t2.length = 32 →
      (processLog cs md lg).2 = .ok (some (.transfer r)) →
      r.token = cs (pyHex lg.address) ∧
      r.from_addr = cs ("0x" ++ String.mk (hexChars (t1.drop 12))) ∧
      r.to_addr = cs ("0x" ++ String.mk (hexChars (t2.drop 12)))) ∧
    (∀ t1 t2 a, pyHex t0 = SIG_APPROVAL →
      lg.topics[1]? = some t1 → t1.length = 32 →
      lg.topics[2]? = some t2 → t2.length = 32 →
      (processLog cs md lg).2 = .ok (some (.approval a)) →
      a.token = cs (pyHex lg.address) ∧
      a.owner = cs ("0x" ++ String.mk (hexChars (t1.drop 12))) ∧
      a.spender = cs ("0x" ++ String.mk (hexChars (t2.drop 12)))) ∧
    (∀ t2 t3 r, pyHex t0 = SIG_TF_SINGLE ∨ pyHex t0 = SIG_TF_BATCH →
      lg.topics[2]? = some t2 → t2.length = 32 →
      lg.topics[3]? = some t3 → t3.length = 32 →
      (processLog cs md lg).2 = .ok (some (.transfer r)) →
      r.token = cs (pyHex lg.address) ∧
      r.from_addr = cs ("0x" ++ String.mk (hexChars (t2.drop 12))) ∧
      r.to_addr = cs ("0x" ++ String.mk (hexChars (t3.drop 12)))) := by
  refine ⟨?_, ?_, ?_⟩
  · intro t1 t2 r hs h1 hl1 h2 hl2 hr
    have hf := transfer_fields cs md lg t0 t1 t2 r h0 hs h1 h2 hr
    rw [topicAddrStr_32 t1 hl1, topicAddrStr_32 t2 hl2] at hf
    exact hf
  · intro t1 t2 a hs h1 hl1 h2 hl2 hr
    have hf := approval_fields cs md lg t0 t1 t2 a h0 hs h1 h2 hr
    rw [topicAddrStr_32 t1 hl1, topicAddrStr_32 t2 hl2] at hf
    exact hf
  · intro t2 t3 r hs h2 hl2 h3 hl3 hr
    rcases hs with hs | hs
    · rw [processLog_single_eq cs md lg t0 t2 t3 h0 hs h2 h3] at hr
      have hX : (Except.ok (some (LogRecord.transfer
          { token := cs (pyHex lg.address),
            symbol := (_safe_symbol_and_decimals (md (cs (pyHex lg.address)))).1,
            standard := "ERC1155",
            from_addr := cs (topicAddrStr t2), to_addr := cs (topicAddrStr t3),
            amount := natStr (beBytesToNat ((lg.data.drop 32).take 32)),
            raw_amount := beBytesToNat ((lg.data.drop 32).take 32),
            token_id := some (beBytesToNat (lg.data.take 32)) })) :
          Except PyErr (Option LogRecord)) =
          .ok (some (.transfer r)) := hr
      simp only [Except.ok.injEq, Option.some.injEq, LogRecord.transfer.injEq] at hX
      subst hX
      rw [topicAddrStr_32 t2 hl2, topicAddrStr_32 t3 hl3]
      exact ⟨rfl, rfl, rfl⟩
    · rw [processLog_batch_eq cs md lg t0 t2 t3 h0 hs h2 h3] at hr
      have hX : (Except.ok (some (LogRecord.transfer
          { token := cs (pyHex lg.address),
            symbol := (_safe_symbol_and_decimals (md (cs (pyHex lg.address)))).1,
            standard := "ERC1155",
            from_addr := cs (topicAddrStr t2), to_addr := cs (topicAddrStr t3),
            amount := "BATCH", raw_amount := 0, token_id := none })) :
          Except PyErr (Option LogRecord)) =
          .ok (some (.transfer r)) := hr
      simp only [Except.ok.injEq, Option.some.injEq, LogRecord.transfer.injEq] at hX
      subst hX
      rw [topicAddrStr_32 t2 hl2, topicAddrStr_32 t3 hl3]
      exact ⟨rfl, rfl, rfl⟩

/-- Witness for C8 on the concrete Transfer log: the extracted from and
to addresses are the checksum rendering of the low 20 bytes of topics 1
and 2, and the token is the checksum rendering of the log address. -/
theorem C8_address_extraction_witness :
    c1Record.token = csF (pyHex (transferLog [3]).address) ∧
    c1Record.from_addr = csF ("0x" ++ String.mk (hexChars ((addrTopic 1).drop 12))) ∧
    c1Record.to_addr = csF ("0x" ++ String.mk (hexChars ((addrTopic 2).drop 12))) :=
  (C8_address_extraction csF mdFail (transferLog [3]) sigTransferBytes rfl).1
    (addrTopic 1) (addrTopic 2) c1Record (by decide) rfl (by decide) rfl (by decide) (by rfl)

/-! ## Claim C2: payload-length handling -/

/-- Claim C2 (counterexample): a Transfer log with an empty data payload
— far shorter than the 32 bytes the claim says are required — still
produces a TokenTransfer record (raw amount 0, decoded from the empty
byte slice); the code has no payload-length check and no warning
mechanism. -/
theorem C2_counterexample :
    (transferLog []).data.length < 32 ∧
    (processLog csF mdFail (transferLog [])).2 = .ok (some (.transfer
      { token := csF (pyHex tokenAddrBytes), symbol := "UNKNOWN", standard := "ERC721",
        from_addr := csF (topicAddrStr (addrTopic 1)),
        to_addr := csF (topicAddrStr (addrTopic 2)),
        amount := "1", raw_amount := 0, token_id := some 0 })) :=
  ⟨by decide, by rfl⟩

/-- Claim C2 (amended): decoding performs no payload-length check and
surfaces no warning.  A Transfer or Approval log whose payload is
shorter than 32 bytes (each byte below 256) still yields a record whose
raw amount is the big-endian value of the bytes that are present, and a
TransferSingle log yields, for every payload — in particular one
shorter than the 64 bytes two words would need — a record whose
token-id and raw amount are decoded from the possibly-truncated first
and second 32-byte payload slices. -/
theorem C2_amended (cs : String → String) (md : String → MdOutcome)
    (lg : LogEntry) (t0 : List ℕ)
    (h0 : lg.topics.head? = some t0) :
    (pyHex t0 = SIG_TRANSFER → lg.data.length < 32 → (∀ x ∈ lg.data, x < 256) →
      ∀ t1 t2, lg.topics[1]? = some t1 → lg.topics[2]? = some t2 →
      ∃ t : TokenTransfer, (processLog cs md lg).2 = .ok (some (.transfer t)) ∧
        t.raw_amount = beBytesToNat lg.data) ∧
    (pyHex t0 = SIG_APPROVAL → lg.data.length < 32 → (∀ x ∈ lg.data, x < 256) →
      ∀ t1 t2, lg.topics[1]? = some t1 → lg.topics[2]? = some t2 →
      ∃ a : ApprovalChange, (processLog cs md lg).2 = .ok (some (.approval a)) ∧
        a.raw_amount = beBytesToNat lg.data) ∧
    (pyHex t0 = SIG_TF_SINGLE →
      ∀ t2 t3, lg.topics[2]? = some t2 → lg.topics[3]? = some t3 →
      ∃ t : TokenTransfer, (processLog cs md lg).2 = .ok (some (.transfer t)) ∧
        t.token_id = some (beBytesToNat (lg.data.take 32)) ∧
        t.raw_amount = beBytesToNat ((lg.data.drop 32).take 32)) := by
  refine ⟨?_, ?_, ?_⟩
  · intro hs hlen hbytes t1 t2 h1 h2
    have hraw : (beBytesToNat lg.data : ℚ) ≤ (2 : ℚ) ^ (1023 : ℕ) :=
      beBytesToNat_le_b64 lg.data hbytes (Nat.le_of_lt_succ hlen)
    rw [processLog_transfer_eq cs md lg t0 t1 t2 h0 hs h1 h2]
    by_cases hc : (_safe_symbol_and_decimals (md (cs (pyHex lg.address)))).2.2 = "ERC721" ∨
        ((_safe_symbol_and_decimals (md (cs (pyHex lg.address)))).2.1 = 0 ∧
          beBytesToNat lg.data < 10 ^ 10)
    · rw [if_pos hc]
      exact ⟨_, rfl, rfl⟩
    · rw [if_neg hc]
      obtain ⟨str, hstr⟩ := format_amount_total (beBytesToNat lg.data)
        (_safe_symbol_and_decimals (md (cs (pyHex lg.address)))).2.1 hraw
      rw [hstr]
      exact ⟨_, rfl, rfl⟩
  · intro hs hlen hbytes t1 t2 h1 h2
    have hraw : (beBytesToNat lg.data : ℚ) ≤ (2 : ℚ) ^ (1023 : ℕ) :=
      beBytesToNat_le_b64 lg.data hbytes (Nat.le_of_lt_succ hlen)
    rw [processLog_approval_eq cs md lg t0 t1 t2 h0 hs h1 h2]
    obtain ⟨str, hstr⟩ := format_amount_total (beBytesToNat lg.data)
      (_safe_symbol_and_decimals (md (cs (pyHex lg.address)))).2.1 hraw
    rw [hstr]
    exact ⟨_, rfl, rfl⟩
  · intro hs t2 t3 h2 h3
    rw [processLog_single_eq cs md lg t0 t2 t3 h0 hs h2 h3]
    exact ⟨_, rfl, rfl, rfl⟩

/-- A TransferSingle log with a 34-byte payload: a full 32-byte token-id
word (value 7) followed by a truncated two-byte amount slice (value 9). -/
def c2SingleLog : LogEntry :=
  { address := tokenAddrBytes,
    topics := [sigSingleBytes, addrTopic 9, addrTopic 1, addrTopic 2],
    data := (List.replicate 31 0 ++ [7]) ++ [0, 9] }

/-- Witness for C2 (amended): a Transfer log with a one-byte payload
yields a record whose raw amount is that byte, and a TransferSingle log
with a 34-byte payload (shorter than 64) yields a record decoding
token-id 7 and, from the truncated second slice, amount 9. -/
theorem C2_amended_witness :
    (∃ t : TokenTransfer,
      (processLog csF mdERC20 (transferLog [2])).2 = .ok (some (.transfer t)) ∧
      t.raw_amount = beBytesToNat (transferLog [2]).data) ∧
    (∃ t : TokenTransfer,
      (processLog csF mdFail c2SingleLog).2 = .ok (some (.transfer t)) ∧
      t.token_id = some (beBytesToNat (c2SingleLog.data.take 32)) ∧
      t.raw_amount = beBytesToNat ((c2SingleLog.data.drop 32).take 32)) ∧
    c2SingleLog.data.length = 34 ∧
    beBytesToNat (c2SingleLog.data.take 32) = 7 ∧
    beBytesToNat ((c2SingleLog.data.drop 32).take 32) = 9 :=
  ⟨(C2_amended csF mdERC20 (transferLog [2]) sigTransferBytes rfl).1 (by decide)
      (by decide) (by decide) (addrTopic 1) (addrTopic 2) rfl rfl,
   (C2_amended csF mdFail c2SingleLog sigSingleBytes rfl).2.2 (by decide)
      (addrTopic 1) (addrTopic 2) rfl rfl,
   by decide, by decide, by decide⟩

/-! ## Claim C9: ordering and unrecognized logs -/

theorem parse_tx_filterMap (cs : String → String) (md : String → MdOutcome)
    (logs : List LogEntry) (ts : List TokenTransfer) (aps : List ApprovalChange)
    (h : parse_tx cs md logs = .ok (ts, aps)) :
    ts = logs.filterMap (transferOf cs md) ∧
    aps = logs.filterMap (approvalOf cs md) := by
  induction logs generalizing ts aps with
  | nil =>
    have h2 : (Except.ok (([], []) : List TokenTransfer × List ApprovalChange) :
        Except PyErr _) = .ok (ts, aps) := h
    simp only [Except.ok.injEq, Prod.mk.injEq] at h2
    simp [← h2.1, ← h2.2]
  | cons lg rest ih =>
    unfold parse_tx parseLogsAux at h
    cases hp : (processLog cs md lg).2 with
    | error e =>
      simp only [hp] at h
      exact absurd h (by simp)
    | ok orec =>
      simp only [hp] at h
      cases ht : (parseLogsAux cs md rest).2 with
      | error e =>
        rw [ht] at h
        exact absurd h (by simp)
      | ok p =>
        rw [ht] at h
        obtain ⟨ih1, ih2⟩ := ih p.1 p.2 (by
          show (parseLogsAux cs md rest).2 = _
          rw [ht])
        cases orec with
        | none =>
          have h2 : (Except.ok p : Except PyErr _) = .ok (ts, aps) := h
          simp only [Except.ok.injEq] at h2
          rw [List.filterMap_cons, List.filterMap_cons]
          have htf : transferOf cs md lg = none := by
            unfold transferOf
            rw [hp]
          have haf : approvalOf cs md lg = none := by
            unfold approvalOf
            rw [hp]
          rw [htf, haf, ← ih1, ← ih2, h2]
          exact ⟨rfl, rfl⟩
        | some rec =>
          cases rec with
          | transfer t =>
            have h2 : (Except.ok ((t :: p.1, p.2)) : Except PyErr _) = .ok (ts, aps) := h
            simp only [Except.ok.injEq, Prod.mk.injEq] at h2
            rw [List.filterMap_cons, List.filterMap_cons]
            have htf : transferOf cs md lg = some t := by
              unfold transferOf
              rw [hp]
            have haf : approvalOf cs md lg = none := by
              unfold approvalOf
              rw [hp]
            rw [htf, haf, ← ih1, ← ih2, ← h2.1, ← h2.2]
            exact ⟨rfl, rfl⟩
          | approval a =>
            have h2 : (Except.ok ((p.1, a :: p.2)) : Except PyErr _) = .ok (ts, aps) := h
            simp only [Except.ok.injEq, Prod.mk.injEq] at h2
            rw [List.filterMap_cons, List.filterMap_cons]
            have htf : transferOf cs md lg = none := by
              unfold transferOf
              rw [hp]
            have haf : approvalOf cs md lg = some a := by
              unfold approvalOf
              rw [hp]
            rw [htf, haf, ← ih1, ← ih2, ← h2.1, ← h2.2]
            exact ⟨rfl, rfl⟩

theorem parseLogsAux_skip (cs : String → String) (md : String → MdOutcome)
    (pre post : List LogEntry) (junk : LogEntry)
    (hj : processLog cs md junk = ([], .ok none)) :
    parseLogsAux cs md (pre ++ junk :: post) = parseLogsAux cs md (pre ++ post) := by
  induction pre with
  | nil =>
    show parseLogsAux cs md (junk :: post) = parseLogsAux cs md post
    rw [parseLogsAux, hj]
    cases hpost : parseLogsAux cs md post with
    | mk trace res =>
      cases res with
      | error e => rfl
      | ok p => rfl
  | cons a pre ih =>
    show parseLogsAux cs md (a :: (pre ++ junk :: post)) =
      parseLogsAux cs md (a :: (pre ++ post))
    rw [parseLogsAux, parseLogsAux, ih]

/-- Claim C9: when decoding succeeds, the transfers list is exactly the
receipt logs filtered-and-mapped in order through the per-log transfer
extraction, and likewise for approvals — so record order matches log
order; and a log whose first topic matches none of the four known
signatures contributes no transfer and no approval and can be removed
from the receipt without changing the decode of all other logs. -/
theorem C9_ordering_and_skip (cs : String → String) (md : String → MdOutcome) :
    (∀ logs ts aps, parse_tx cs md logs = .ok (ts, aps) →
      ts = logs.filterMap (transferOf cs md) ∧
      aps = logs.filterMap (approvalOf cs md)) ∧
    (∀ pre post junk t0, junk.topics.head? = some t0 → pyHex t0 ∉ KNOWN_SIGS →
      transferOf cs md junk = none ∧ approvalOf cs md junk = none ∧
      parse_tx cs md (pre ++ junk :: post) = parse_tx cs md (pre ++ post)) := by
  constructor
  · exact parse_tx_filterMap cs md
  · intro pre post junk t0 h0 hs
    have hj := processLog_unrecognized cs md junk t0 h0 hs
    refine ⟨?_, ?_, ?_⟩
    · unfold transferOf
      rw [show (processLog cs md junk).2 = .ok none from by rw [hj]]
    · unfold approvalOf
      rw [show (processLog cs md junk).2 = .ok none from by rw [hj]]
    · unfold parse_tx
      rw [parseLogsAux_skip cs md pre post junk hj]

/-- A log whose single topic is the one-byte word 0, matching no known
signature. -/
def junkLog : LogEntry := { address := tokenAddrBytes, topics := [[0]], data := [] }

/-- Witness for C9 on a two-log receipt: the decoded transfers equal the
in-order filterMap of the logs, the junk log contributes nothing, and
removing it leaves the decode unchanged. -/
theorem C9_ordering_and_skip_witness :
    ([{ token := csF (pyHex tokenAddrBytes), symbol := "UNKNOWN", standard := "ERC721",
        from_addr := csF (topicAddrStr (addrTopic 1)),
        to_addr := csF (topicAddrStr (addrTopic 2)),
        amount := "1", raw_amount := 7, token_id := some 7 }] : List TokenTransfer) =
      [transferLog [7], junkLog].filterMap (transferOf csF mdFail) ∧
    ([] : List ApprovalChange) =
      [transferLog [7], junkLog].filterMap (approvalOf csF mdFail) ∧
    transferOf csF mdFail junkLog = none ∧
    approvalOf csF mdFail junkLog = none ∧
    parse_tx csF mdFail ([transferLog [7]] ++ junkLog :: []) =
      parse_tx csF mdFail ([transferLog [7]] ++ []) :=
  ⟨((C9_ordering_and_skip csF mdFail).1 [transferLog [7], junkLog] _ _ (by rfl)).1,
   ((C9_ordering_and_skip csF mdFail).1 [transferLog [7], junkLog] _ _ (by rfl)).2,
   ((C9_ordering_and_skip csF mdFail).2 [transferLog [7]] [] junkLog [0] rfl (by decide)).1,
   ((C9_ordering_and_skip csF mdFail).2 [transferLog [7]] [] junkLog [0] rfl (by decide)).2.1,
   ((C9_ordering_and_skip csF mdFail).2 [transferLog [7]] [] junkLog [0] rfl (by decide)).2.2⟩

/-! ## Claim C4: metadata lookups per address -/

/-- The token contract address stored in a record. -/
def recToken : LogRecord → String
  | .transfer t => t.token
  | .approval a => a.token

/-- The token symbol stored in a record. -/
def recSymbol : LogRecord → String
  | .transfer t => t.symbol
  | .approval a => a.symbol

theorem processLogResult_token_symbol (cs : String → String) (md : String → MdOutcome)
    (lg : LogEntry) (rec : LogRecord)
    (h : processLogResult cs md lg = .ok (some rec)) :
    recToken rec = cs (pyHex lg.address) ∧
    recSymbol rec = (_safe_symbol_and_decimals (md (cs (pyHex lg.address)))).1 := by
  unfold processLogResult at h
  cases h0 : lg.topics.head? with
  | none =>
    rw [h0] at h
    exact absurd h (by simp)
  | some t0 =>
    rw [h0] at h
    simp only [] at h
    split at h
    all_goals try split at h
    all_goals try split at h
    all_goals try split at h
    all_goals try split at h
    all_goals try split at h
    all_goals try exact Except.noConfusion h
    all_goals try exact Option.noConfusion (Except.ok.inj h)
    all_goals simp only [Except.ok.injEq, Option.some.injEq] at h
    all_goals subst h
    all_goals exact ⟨rfl, rfl⟩

theorem metadataQueries_flatten (cs : String → String) (md : String → MdOutcome)
    (logs : List LogEntry) (p : List TokenTransfer × List ApprovalChange)
    (h : parse_tx cs md logs = .ok p) :
    metadataQueries cs md logs = (logs.map (processLogTrace cs)).flatten := by
  induction logs generalizing p with
  | nil => rfl
  | cons lg rest ih =>
    unfold parse_tx at h
    unfold metadataQueries
    rw [parseLogsAux] at h ⊢
    cases hp : (processLog cs md lg).2 with
    | error e =>
      simp only [hp] at h
      exact absurd h (by simp)
    | ok orec =>
      simp only [hp] at h ⊢
      cases ht : (parseLogsAux cs md rest).2 with
      | error e =>
        rw [ht] at h
        exact absurd h (by simp)
      | ok q =>
        have hq : parse_tx cs md rest = .ok q := by
          show (parseLogsAux cs md rest).2 = _
          rw [ht]
        have ih2 := ih q hq
        unfold metadataQueries at ih2
        rw [List.map_cons, List.flatten_cons, ← ih2]
        rfl

/-- Claim C4 (counterexample): two Transfer logs of the same token make
the decode loop run the metadata lookup twice for that one address —
there is no transaction-scoped cache, so the lookup count is not
bounded by one per distinct address. -/
theorem C4_counterexample :
    metadataQueries csF mdFail [transferLog [1], transferLog [1]] =
      [csF (pyHex tokenAddrBytes), csF (pyHex tokenAddrBytes)] ∧
    ¬ (metadataQueries csF mdFail [transferLog [1], transferLog [1]]).count
        (csF (pyHex tokenAddrBytes)) ≤ 1 :=
  ⟨by rfl, by decide⟩

/-- Claim C4 (amended): there is no memoization.  On a successful
decode the metadata-query trace is the concatenation of the per-log
traces, where each recognized log contributes one fresh lookup of its
own checksummed contract address and an unrecognized log contributes
none — so an address occurring in k recognized logs is looked up k
times.  Because the lookup is a pure capability here, the symbol (and
likewise the scale) every produced record carries is still the one
determined by its own token address, the same for all records of one
token. -/
theorem C4_amended (cs : String → String) (md : String → MdOutcome) :
    (∀ logs p, parse_tx cs md logs = .ok p →
      metadataQueries cs md logs = (logs.map (processLogTrace cs)).flatten) ∧
    (∀ lg t0, lg.topics.head? = some t0 →
      (pyHex t0 ∈ KNOWN_SIGS → processLogTrace cs lg = [cs (pyHex lg.address)]) ∧
      (pyHex t0 ∉ KNOWN_SIGS → processLogTrace cs lg = [])) ∧
    (∀ lg rec, (processLog cs md lg).2 = .ok (some rec) →
      recSymbol rec = (_safe_symbol_and_decimals (md (recToken rec))).1) := by
  refine ⟨metadataQueries_flatten cs md, ?_, ?_⟩
  · intro lg t0 h0
    constructor
    · intro hmem
      unfold processLogTrace
      rw [h0]
      exact if_pos hmem
    · intro hmem
      unfold processLogTrace
      rw [h0]
      exact if_neg hmem
  · intro lg rec h
    have h2 : processLogResult cs md lg = .ok (some rec) := h
    obtain ⟨ht, hs⟩ := processLogResult_token_symbol cs md lg rec h2
    rw [hs, ht]

/-- The record decoded from a Transfer log with payload byte 4 under
failing metadata. -/
def c4Rec : TokenTransfer :=
  { token := csF (pyHex tokenAddrBytes), symbol := "UNKNOWN", standard := "ERC721",
    from_addr := csF (topicAddrStr (addrTopic 1)),
    to_addr := csF (topicAddrStr (addrTopic 2)),
    amount := "1", raw_amount := 4, token_id := some 4 }

/-- Witness for C4 (amended) on a one-log receipt: the query trace is
the flattened per-log trace, the recognized log contributes exactly its
own address, and the produced record carries the symbol resolved from
its own token address. -/
theorem C4_amended_witness :
    metadataQueries csF mdFail [transferLog [4]] =
      ([transferLog [4]].map (processLogTrace csF)).flatten ∧
    processLogTrace csF (transferLog [4]) = [csF (pyHex (transferLog [4]).address)] ∧
    recSymbol (.transfer c4Rec) =
      (_safe_symbol_and_decimals (mdFail (recToken (.transfer c4Rec)))).1 :=
  ⟨(C4_amended csF mdFail).1 [transferLog [4]] ([c4Rec], []) (by rfl),
   ((C4_amended csF mdFail).2.1 (transferLog [4]) sigTransferBytes rfl).1 (by decide),
   (C4_amended csF mdFail).2.2 (transferLog [4]) (.transfer c4Rec) (by rfl)⟩

/-! ## Claim C10: missing topics abort the whole transaction -/

/-- A Transfer-signature log carrying only the signature topic, the
shape of an event with unindexed from/to parameters. -/
def badLog : LogEntry := { address := tokenAddrBytes, topics := [sigTransferBytes], data := [] }

/-- Claim C10: a Transfer-signature log with fewer than three topics
makes the whole decode raise IndexError — the entire transaction fails
— although the same receipt without that log decodes fine, so the
malformed log is not skipped and the logs after it are never decoded. -/
theorem C10_index_error :
    parse_tx csF mdFail [badLog, transferLog [5]] = .error .indexError ∧
    parse_tx csF mdFail [transferLog [5]] =
      .ok ([{ token := csF (pyHex tokenAddrBytes), symbol := "UNKNOWN",
              standard := "ERC721",
              from_addr := csF (topicAddrStr (addrTopic 1)),
              to_addr := csF (topicAddrStr (addrTopic 2)),
              amount := "1", raw_amount := 5, token_id := some 5 }], []) :=
  ⟨by rfl, by rfl⟩

/-! ## Claims C5 and C6: amount formatting -/

/-- Claim C5 as stated is false on the code: it promises the division is
computed with enough precision to keep at least 8 fraction digits, but at
raw 10^17 + 1 and scale 1 the binary64 division rounds the quotient
10^16 + 0.1 to 10^16 before formatting, so the code drops the .1 the
idealized exact formatter keeps. -/
theorem C5_counterexample :
    _format_amount (10 ^ 17 + 1) 1 = some ("10000000000000000") ∧
    specFormatAmount (10 ^ 17 + 1) 1 = "10000000000000000.1" ∧
    _format_amount (10 ^ 17 + 1) 1 ≠ some (specFormatAmount (10 ^ 17 + 1) 1) :=
  ⟨by decide, by decide, by decide⟩

/-- Claim C5 (amended): with scale 0 the formatter returns the decimal
string of the raw integer; with a positive scale it renders the binary64
quotient at 8 fixed decimals and strips, which agrees with the idealized
exact 8-fraction-digit formatter of the spec exactly when the quotient
is representable in binary64 without rounding. -/
theorem C5_amended (raw s : ℕ) :
    (s = 0 → _format_amount raw s = some (natStr raw)) ∧
    (∀ m : ℕ, ∀ e : ℤ, s ≠ 0 → pyFloatDiv raw (10 ^ s) = some (m, e) →
      floatIsExact (m, e) raw (10 ^ s) →
      _format_amount raw s = some (specFormatAmount raw s)) := by
  constructor
  · intro hs
    unfold _format_amount
    rw [if_pos hs]
  · intro m e hs hdiv hex
    have hb : (0 : ℕ) < 10 ^ s := by positivity
    have hexQ : (m : ℚ) * (2 : ℚ) ^ e = (raw : ℚ) / ((10 ^ s : ℕ) : ℚ) :=
      floatIsExact_val m e raw (10 ^ s) hb hex
    have hkey : fix8OfFloat m e = roundHalfEvenNat (raw * 10 ^ 8) (10 ^ s) := by
      have h1 := fix8OfFloat_eq m e
      have h2 := roundHalfEvenNat_eq_rheQ (raw * 10 ^ 8) (10 ^ s) hb
      have harg : (m : ℚ) * (2 : ℚ) ^ e * 10 ^ 8 =
          ((raw * 10 ^ 8 : ℕ) : ℚ) / ((10 ^ s : ℕ) : ℚ) := by
        rw [hexQ]
        push_cast
        ring
      rw [harg, ← h2] at h1
      exact_mod_cast h1
    rw [format_amount_pos raw s hs m e hdiv, hkey]
    unfold specFormatAmount
    rw [if_neg hs]

/-- Witness for C5_amended at the specification example: raw 1,250,000
at scale 6, whose quotient 1.25 is exactly representable in binary64, and
the output matches the spec example string 1.25. -/
theorem C5_amended_witness :
    _format_amount 1250000 6 = some (specFormatAmount 1250000 6) ∧
    specFormatAmount 1250000 6 = "1.25" :=
  ⟨(C5_amended 1250000 6).2 5629499534213120 (-52) (by decide) (by decide) (by decide),
   by decide⟩

/-- Claim C6 as stated is false on the code: raw 1 at scale 18 formats
as the string 0, because the quotient 1e-18 is below the 8-decimal
resolution of the fixed rendering; parsing back and rescaling gives 0,
a total relative error rather than 10^-8. -/
theorem C6_counterexample :
    _format_amount 1 18 = some ("0") ∧
    ¬ (|strToRat ("0") * 10 ^ 18 - ((1 : ℕ) : ℚ)| ≤ ((1 : ℕ) : ℚ) / 10 ^ 8) := by
  constructor
  · decide
  · have h0 : strToRat ("0") = 0 := by
      have hp : parseDec (("0" : String).toList) = (0, 1) := by decide
      unfold strToRat
      rw [hp]
      norm_num
    rw [h0]
    norm_num

/-- Claim C6 (amended): the formatted string never carries trailing
fraction zeros or a dangling dot; at scale 0 the parse-back is exact; at
a positive scale the 10^-8 relative round-trip bound holds whenever the
scaled value is at least 1 (raw at least 10^scale) and the quotient stays
within the binary64 range.  Below a scaled value of 1 the 8-decimal
rendering can lose the value entirely, as the counterexample shows. -/
theorem C6_amended (raw s : ℕ) :
    (∀ out, _format_amount raw s = some out → noTrailingJunk out) ∧
    (s = 0 → strToRat (natStr raw) = raw) ∧
    (1 ≤ s → 10 ^ s ≤ raw → (raw : ℚ) ≤ (2 : ℚ) ^ (1023 : ℕ) * (10 : ℚ) ^ s →
      ∃ out, _format_amount raw s = some out ∧
        |strToRat out * (10 : ℚ) ^ s - (raw : ℚ)| ≤ (raw : ℚ) / 10 ^ 8) := by
  refine ⟨fun out h => format_amount_noTrailing raw s out h, fun _ => strToRat_natStr raw, ?_⟩
  intro hs1 hsge hsle
  have hb : (0 : ℕ) < 10 ^ s := by positivity
  have hbQ : (0 : ℚ) < ((10 ^ s : ℕ) : ℚ) := by exact_mod_cast hb
  have hcast10 : ((10 ^ s : ℕ) : ℚ) = (10 : ℚ) ^ s := by push_cast; ring
  obtain ⟨m, e, hdiv⟩ := pyFloatDiv_some raw (10 ^ s) hb (by rw [hcast10]; exact hsle)
  set n := fix8OfFloat m e with hn
  refine ⟨_, format_amount_pos raw s (by omega) m e hdiv, ?_⟩
  rw [strToRat_strip_fix8 n]
  set q : ℚ := (raw : ℚ) / (10 : ℚ) ^ s with hqdef
  have hraw : q * (10 : ℚ) ^ s = (raw : ℚ) := by
    rw [hqdef]
    field_simp
  have hq1 : 1 ≤ q := by
    rw [hqdef, le_div_iff₀ (by positivity : (0 : ℚ) < (10 : ℚ) ^ s)]
    have : ((10 ^ s : ℕ) : ℚ) ≤ ((raw : ℕ) : ℚ) := by exact_mod_cast hsge
    rw [hcast10] at this
    linarith
  -- the fixed-decimal rendering error
  have hfix := fix8OfFloat_eq m e
  have hnQ : (n : ℚ) = ((rheQ ((m : ℚ) * (2 : ℚ) ^ e * 10 ^ 8) : ℤ) : ℚ) := by
    exact_mod_cast congrArg (fun z : ℤ => (z : ℚ)) hfix
  have hle1 := rheQ_le ((m : ℚ) * (2 : ℚ) ^ e * 10 ^ 8)
  have hge1 := rheQ_ge ((m : ℚ) * (2 : ℚ) ^ e * 10 ^ 8)
  rw [← hnQ] at hle1 hge1
  have habs1 : |(n : ℚ) / 10 ^ 8 - (m : ℚ) * (2 : ℚ) ^ e| ≤ 1 / (2 * 10 ^ 8) := by
    have hsplit : (n : ℚ) / 10 ^ 8 - (m : ℚ) * (2 : ℚ) ^ e =
        ((n : ℚ) - (m : ℚ) * (2 : ℚ) ^ e * 10 ^ 8) / 10 ^ 8 := by
      field_simp
      ring
    have habs0 : |(n : ℚ) - (m : ℚ) * (2 : ℚ) ^ e * 10 ^ 8| ≤ 1 / 2 :=
      abs_le.mpr ⟨by linarith, by linarith⟩
    rw [hsplit, abs_div, abs_of_pos (by norm_num : (0 : ℚ) < (10 : ℚ) ^ 8)]
    calc |(n : ℚ) - (m : ℚ) * (2 : ℚ) ^ e * 10 ^ 8| / 10 ^ 8 ≤ (1 / 2) / 10 ^ 8 := by gcongr
      _ = 1 / (2 * 10 ^ 8) := by norm_num
  -- the division error
  have hq2 := pyFloatDiv_bound raw (10 ^ s) m e hb hdiv
  rw [hcast10] at hq2
  -- the exponent is within a factor 2^-53 of the value
  have hraw0 : raw ≠ 0 := by
    intro h0
    rw [h0] at hsge
    omega
  rcases pyFloatDiv_inv raw (10 ^ s) m e hdiv with ⟨h0, _, _⟩ | ⟨_, hee, _, _⟩
  · exact absurd h0 hraw0
  · have hz0 : 0 ≤ floorLog2Frac raw (10 ^ s) := floorLog2Frac_nonneg _ _ hsge
    have hee' : e = floorLog2Frac raw (10 ^ s) - 52 := by
      rw [hee]
      unfold pyDivExp
      omega
    have hzle := floorLog2Frac_le raw (10 ^ s) (Nat.pos_of_ne_zero hraw0) hb
    rw [hcast10] at hzle
    have h2em : (2 : ℚ) ^ (e - 1) ≤ q * (2 : ℚ) ^ (-53 : ℤ) := by
      rw [hee']
      have hsplit : (2 : ℚ) ^ (floorLog2Frac raw (10 ^ s) - 52 - 1) =
          (2 : ℚ) ^ (floorLog2Frac raw (10 ^ s)) * (2 : ℚ) ^ (-53 : ℤ) := by
        rw [← zpow_add₀ (by norm_num : (2 : ℚ) ≠ 0)]
        congr 1
        ring
      rw [hsplit]
      exact mul_le_mul_of_nonneg_right hzle (by positivity)
  -- assemble
    have htri : |(n : ℚ) / 10 ^ 8 - q| ≤ 1 / (2 * 10 ^ 8) + q * (2 : ℚ) ^ (-53 : ℤ) := by
      have h1 := abs_sub_le ((n : ℚ) / 10 ^ 8) ((m : ℚ) * (2 : ℚ) ^ e) q
      have h2 : |(m : ℚ) * (2 : ℚ) ^ e - q| ≤ q * (2 : ℚ) ^ (-53 : ℤ) := le_trans hq2 h2em
      exact le_trans h1 (add_le_add habs1 h2)
    have h53 : (2 : ℚ) ^ (-53 : ℤ) ≤ 1 / (2 * 10 ^ 8) := by
      have heq53 : (2 : ℚ) ^ (-53 : ℤ) = ((2 : ℚ) ^ (53 : ℕ))⁻¹ := by
        rw [zpow_neg]
        congr 1
        exact zpow_natCast 2 53
      rw [heq53]
      rw [inv_le_comm₀ (by norm_num) (by norm_num)]
      norm_num
    have hstep : 1 / (2 * 10 ^ 8) + q * (2 : ℚ) ^ (-53 : ℤ) ≤ q / 10 ^ 8 := by
      have hqpos : (0 : ℚ) ≤ q := by linarith
      have ha1 : q * (2 : ℚ) ^ (-53 : ℤ) ≤ q * (1 / (2 * 10 ^ 8)) :=
        mul_le_mul_of_nonneg_left h53 hqpos
      have ha2 : 1 / (2 * 10 ^ 8) ≤ q * (1 / (2 * 10 ^ 8)) := by nlinarith
      have ha3 : q / 10 ^ 8 = q * (1 / (2 * 10 ^ 8)) + q * (1 / (2 * 10 ^ 8)) := by ring
      linarith
    have hmain : (n : ℚ) / 10 ^ 8 * (10 : ℚ) ^ s - (raw : ℚ) =
        ((n : ℚ) / 10 ^ 8 - q) * (10 : ℚ) ^ s := by
      rw [sub_mul, hraw]
    rw [hmain, abs_mul, abs_of_pos (by positivity : (0 : ℚ) < (10 : ℚ) ^ s)]
    have hfinal : (1 / (2 * 10 ^ 8) + q * (2 : ℚ) ^ (-53 : ℤ)) * (10 : ℚ) ^ s ≤
        (raw : ℚ) / 10 ^ 8 := by
      have h1 := mul_le_mul_of_nonneg_right hstep
        (by positivity : (0 : ℚ) ≤ (10 : ℚ) ^ s)
      have h2 : q / 10 ^ 8 * (10 : ℚ) ^ s = (raw : ℚ) / 10 ^ 8 := by
        rw [div_mul_eq_mul_div, mul_comm, ← div_mul_eq_mul_div, ← hraw]
        ring
      linarith
    have h3 := mul_le_mul_of_nonneg_right htri
      (by positivity : (0 : ℚ) ≤ (10 : ℚ) ^ s)
    linarith

/-- Witness for C6_amended at raw 1,250,000 and scale 6: the output
string exists, round-trips within the relative bound, and is free of
trailing junk. -/
theorem C6_amended_witness :
    (∃ out, _format_amount 1250000 6 = some out ∧
      |strToRat out * (10 : ℚ) ^ 6 - ((1250000 : ℕ) : ℚ)| ≤ ((1250000 : ℕ) : ℚ) / 10 ^ 8) ∧
    noTrailingJunk ("1.25") :=
  ⟨(C6_amended 1250000 6).2.2 (by norm_num) (by norm_num)
      (by push_cast; norm_num),
    (C6_amended 1250000 6).1 ("1.25") (by decide)⟩

end DeltaScope
